import Mathlib

/-!
# Verification of the Jungle (Dou Shou Qi) AI engine

A shallow embedding of `src/c/ai_engine.c` / `ai_engine.h` (the Animal-Chess
WebAssembly search engine) together with proofs about its specification.

Modelling conventions:
* C structs become Lean structures; a square's `piece.type == NO_PIECE`
  occupancy convention becomes `Option Piece` (the C code only ever reads the
  other piece fields after checking `type != NO_PIECE`).
* `Player` is the two-valued type `{p0, p1}`.  The C enum value `PLAYER_NONE`
  occurs only in the never-read `player` field of `PIECE_INFO` and as a
  deserialisation sentinel, so it is not represented.
* 64-bit values (Zobrist keys, hashes) are natural numbers `< 2^64`; the C
  operations used on them (XOR, and the LCG's `*`/`+` with wrap-around) are
  `Nat.xor` and arithmetic `% 2^64`.  Signed reinterpretation only matters for
  the transposition-table index, where it is made explicit.
* C `int` arithmetic on scores never overflows on reachable values, so scores
  are unbounded `Int` with `INT_MIN`/`INT_MAX` as the literal constants.
* The wall clock (`emscripten_get_now`) is an oracle `times : Nat → Int` in the
  engine state; each C time check consumes the next reading.
* IEEE-754 `double` arithmetic in the evaluator is modelled by exact rational
  arithmetic.  None of the theorems below depend on floating-point rounding.
-/

set_option maxHeartbeats 4000000
set_option maxRecDepth 10000

namespace AnimalChess

/-! ## Data model (ai_engine.h) -/

inductive Player where
  | p0 : Player
  | p1 : Player
deriving DecidableEq, Repr

/-- `get_opponent` from ai_engine.h (restricted to the two real players). -/
def get_opponent : Player → Player
  | .p0 => .p1
  | .p1 => .p0

inductive PieceType where
  | rat | cat | dog | wolf | leopard | tiger | lion | elephant
deriving DecidableEq, Repr

/-- The numeric value of the `PieceType` enum. -/
def ptIndex : PieceType → Nat
  | .rat => 0 | .cat => 1 | .dog => 2 | .wolf => 3
  | .leopard => 4 | .tiger => 5 | .lion => 6 | .elephant => 7

def playerIndex : Player → Nat
  | .p0 => 0
  | .p1 => 1

structure Piece where
  type : PieceType
  player : Player
  rank : Int
  value : Int
deriving DecidableEq, Repr

inductive TerrainType where
  | land | water | trap | player0Den | player1Den
deriving DecidableEq, Repr

structure Square where
  terrain : TerrainType
  piece : Option Piece
deriving DecidableEq, Repr

/-- 9×7 board of squares (`Board` in ai_engine.h). -/
structure Board where
  squares : Fin 9 → Fin 7 → Square

structure Move where
  from_row : Fin 9
  from_col : Fin 7
  to_row : Fin 9
  to_col : Fin 7
  piece_type : PieceType
  captured_piece_type : Option PieceType
  order_score : Int
deriving DecidableEq, Repr

inductive GameStatus where
  | ongoing | player0Wins | player1Wins | draw
deriving DecidableEq, Repr

instance : Inhabited Move := ⟨⟨0, 0, 0, 0, .rat, none, 0⟩⟩

/-- `PIECE_INFO` rank/value table (the `player` field of the C table is
`PLAYER_NONE` and is never read, so only rank and value are modelled). -/
def PIECE_INFO (pt : PieceType) : Int × Int :=
  match pt with
  | .rat => (1, 200) | .cat => (2, 200) | .dog => (3, 300) | .wolf => (4, 400)
  | .leopard => (5, 500) | .tiger => (6, 700) | .lion => (7, 800) | .elephant => (8, 650)

def WIN_SCORE : Int := 20000
def LOSE_SCORE : Int := -20000
def DRAW_SCORE : Int := 0
def MAX_PLY_FOR_KILLERS : Nat := 30
def TRANSPOSITION_TABLE_SIZE : Nat := 2 ^ 20
def MAX_Q_DEPTH : Nat := 4
def NMP_REDUCTION : Int := 3
def LMR_MOVES_TRIED_THRESHOLD : Nat := 4
def INT_MIN : Int := -(2 ^ 31)
def INT_MAX : Int := 2 ^ 31 - 1
def PLAYER0_DEN_ROW : Int := 8
def PLAYER0_DEN_COL : Int := 3
def PLAYER1_DEN_ROW : Int := 0
def PLAYER1_DEN_COL : Int := 3

/-! ## Zobrist hashing -/

/-- One step of the 64-bit linear congruential generator `random_int64`. -/
def lcg_step (s : Nat) : Nat :=
  (s * 6364136223846793005 + 1442695040888963407) % 2 ^ 64

/-- `lcg_stream n` is the LCG state after `n` calls of `random_int64`
starting from the fixed seed; call `n ≥ 1` returns `lcg_stream n`. -/
def lcg_stream : Nat → Nat
  | 0 => 1234567890123456789
  | n + 1 => lcg_step (lcg_stream n)

/-- `zobrist_table[pt][p][r][c]`: `initialize_zobrist` fills the table in
row-major (pt, p, r, c) order with consecutive `random_int64` outputs. -/
def zobrist_table (pt : PieceType) (p : Player) (r : Fin 9) (c : Fin 7) : Nat :=
  lcg_stream ((((ptIndex pt) * 2 + playerIndex p) * 9 + r.val) * 7 + c.val + 1)

/-- `zobrist_player1_to_move`: the 1009th output of `random_int64`
(after the 8·2·9·7 = 1008 table entries). -/
def zobrist_player1_to_move : Nat := lcg_stream 1009

/-- An affine map modulo `2^64`; `lcg_step` is one such map, and composing
them lets `lcg_stream` be evaluated in logarithmically many steps. -/
def affineM (a c x : Nat) : Nat := (a * x + c) % 2 ^ 64

/-- All board coordinates in the row-major order of the C double loops. -/
def allCoords : List (Fin 9 × Fin 7) :=
  (List.finRange 9).flatMap fun r => (List.finRange 7).map fun c => (r, c)

/-- The XOR contribution of one square to the full Zobrist key. -/
def squareKey (b : Board) (rc : Fin 9 × Fin 7) : Nat :=
  match (b.squares rc.1 rc.2).piece with
  | none => 0
  | some pc => zobrist_table pc.type pc.player rc.1 rc.2

/-- `compute_zobrist_key_full`: XOR of the keys of all occupied squares,
plus the side-to-move key iff Player1 is to move.  (Lazy Zobrist
initialisation is a no-op here because the table is a fixed function.) -/
def compute_zobrist_key_full (b : Board) (player_to_move : Player) : Nat :=
  let base := (allCoords.map (squareKey b)).foldr (· ^^^ ·) 0
  if player_to_move = .p1 then base ^^^ zobrist_player1_to_move else base

/-! ## Rules -/

/-- `rules_is_river`. -/
def rules_is_river (r c : Nat) : Bool :=
  decide (3 ≤ r) && decide (r ≤ 5) && (decide (c = 1) || decide (c = 2) || decide (c = 4) || decide (c = 5))

/-- `rules_get_effective_rank`. -/
def rules_get_effective_rank (pieceOpt : Option Piece) (r : Fin 9) (c : Fin 7) (b : Board) : Int :=
  match pieceOpt with
  | none => 0
  | some pc =>
    if (b.squares r c).terrain = .trap then
      let is_player0_trap := (r.val = 8 ∧ (c.val = 2 ∨ c.val = 4)) ∨ (r.val = 7 ∧ c.val = 3)
      let is_player1_trap := (r.val = 0 ∧ (c.val = 2 ∨ c.val = 4)) ∨ (r.val = 1 ∧ c.val = 3)
      if (pc.player = .p0 ∧ is_player1_trap) ∨ (pc.player = .p1 ∧ is_player0_trap) then 0
      else pc.rank
    else pc.rank

/-- `rules_can_capture`.  The `Option Piece` arguments model the C pointers
(NULL / `NO_PIECE` collapse to `none`). -/
def rules_can_capture (attacker defender : Option Piece)
    (att_r : Fin 9) (att_c : Fin 7) (dr : Fin 9) (dc : Fin 7) (b : Board) : Bool :=
  match attacker, defender with
  | some att, some dfd =>
    if att.player = dfd.player then false
    else
      let att_terrain := (b.squares att_r att_c).terrain
      let def_terrain := (b.squares dr dc).terrain
      if att_terrain = .water ∧ att.type ≠ .rat then false
      else if att_terrain = .water ∧ def_terrain ≠ .water ∧
          ¬(att.type = .rat ∧ dfd.type = .elephant ∧ def_terrain ≠ .water) then false
      else if att.type = .rat ∧ dfd.type = .elephant then
        -- "Rat on land can capture elephant. Rat in water cannot."
        decide (att_terrain ≠ .water)
      else if att.type = .elephant ∧ dfd.type = .rat then false
      else
        decide (rules_get_effective_rank (some att) att_r att_c b ≥
                rules_get_effective_rank (some dfd) dr dc b)
  | _, _ => false

/-- The mover's own den terrain. -/
def own_den_terrain : Player → TerrainType
  | .p0 => .player0Den
  | .p1 => .player1Den

/-- One orthogonal-step candidate of `rules_get_valid_moves_for_piece`:
target `(nr, nc)` (as C ints, possibly off-board).  Returns the emitted move,
or `none` when one of the `continue` conditions fires. -/
def step_move (b : Board) (r : Fin 9) (c : Fin 7) (pc : Piece) (captures_only : Bool)
    (nr nc : Int) : Option Move :=
  if h : 0 ≤ nr ∧ nr < 9 ∧ 0 ≤ nc ∧ nc < 7 then
    let nr' : Fin 9 := ⟨nr.toNat, by omega⟩
    let nc' : Fin 7 := ⟨nc.toNat, by omega⟩
    let tgt := b.squares nr' nc'
    let captured : Option PieceType := tgt.piece.map (·.type)
    if captures_only ∧ tgt.piece = none then none
    else if tgt.terrain = own_den_terrain pc.player then none
    else if tgt.terrain = .water ∧ pc.type ≠ .rat then none
    else
      match tgt.piece with
      | some tp =>
        if tp.player = pc.player then none
        else if rules_can_capture (some pc) tgt.piece r c nr' nc' b then
          some ⟨r, c, nr', nc', pc.type, captured, 0⟩
        else none
      | none => some ⟨r, c, nr', nc', pc.type, captured, 0⟩
  else none

/-- The four orthogonal step targets in the C order `dr = {-1,1,0,0}`,
`dc = {0,0,-1,1}`. -/
def ortho_targets (r : Fin 9) (c : Fin 7) : List (Int × Int) :=
  [((r.val : Int) - 1, (c.val : Int)), ((r.val : Int) + 1, (c.val : Int)),
   ((r.val : Int), (c.val : Int) - 1), ((r.val : Int), (c.val : Int) + 1)]

/-- The jump templates collected by the C code for a piece of type `pt` at
`(r, c)`: each is `(target, river path)` in the order the C arrays are filled
(vertical first, then the Lion's two horizontal blocks). -/
def jump_candidates (pt : PieceType) (r : Fin 9) (c : Fin 7) :
    List ((Nat × Nat) × List (Nat × Nat)) :=
  (if rules_is_river 3 c.val = true ∧ pt ≠ .rat then
    if r.val = 2 then [((6, c.val), [(3, c.val), (4, c.val), (5, c.val)])]
    else if r.val = 6 then [((2, c.val), [(5, c.val), (4, c.val), (3, c.val)])]
    else []
  else []) ++
  (if pt = .lion then
    (if rules_is_river r.val 1 = true ∧ rules_is_river r.val 2 = true ∧ pt ≠ .rat then
      if c.val = 0 then [((r.val, 3), [(r.val, 1), (r.val, 2)])]
      else if c.val = 3 then [((r.val, 0), [(r.val, 2), (r.val, 1)])]
      else []
    else []) ++
    (if rules_is_river r.val 4 = true ∧ rules_is_river r.val 5 = true ∧ pt ≠ .rat then
      if c.val = 3 then [((r.val, 6), [(r.val, 4), (r.val, 5)])]
      else if c.val = 6 then [((r.val, 3), [(r.val, 5), (r.val, 4)])]
      else []
    else [])
  else [])

/-- Board lookup at a `(Nat, Nat)` coordinate (river path cells are in range
by construction; out-of-range reads never occur in the C code). -/
def cellSquare (b : Board) (cell : Nat × Nat) : Square :=
  if h : cell.1 < 9 ∧ cell.2 < 7 then b.squares ⟨cell.1, h.1⟩ ⟨cell.2, h.2⟩
  else ⟨.land, none⟩

/-- Emission of one jump candidate: path-blocking check, then the same landing
rules as orthogonal steps except that landing on water is always refused. -/
def jump_emit (b : Board) (r : Fin 9) (c : Fin 7) (pc : Piece) (captures_only : Bool)
    (cand : (Nat × Nat) × List (Nat × Nat)) : Option Move :=
  if cand.2.any (fun cell =>
      !(rules_is_river cell.1 cell.2) || (cellSquare b cell).piece.isSome) then none
  else if h : cand.1.1 < 9 ∧ cand.1.2 < 7 then
    let nr' : Fin 9 := ⟨cand.1.1, h.1⟩
    let nc' : Fin 7 := ⟨cand.1.2, h.2⟩
    let tgt := b.squares nr' nc'
    let captured : Option PieceType := tgt.piece.map (·.type)
    if captures_only ∧ tgt.piece = none then none
    else if tgt.terrain = own_den_terrain pc.player then none
    else if tgt.terrain = .water then none
    else
      match tgt.piece with
      | some tp =>
        if tp.player = pc.player then none
        else if rules_can_capture (some pc) tgt.piece r c nr' nc' b then
          some ⟨r, c, nr', nc', pc.type, captured, 0⟩
        else none
      | none => some ⟨r, c, nr', nc', pc.type, captured, 0⟩
  else none

/-- `rules_get_valid_moves_for_piece`. -/
def rules_get_valid_moves_for_piece (b : Board) (r : Fin 9) (c : Fin 7)
    (captures_only : Bool) : List Move :=
  match (b.squares r c).piece with
  | none => []
  | some pc =>
    let ortho := (ortho_targets r c).filterMap fun q => step_move b r c pc captures_only q.1 q.2
    let jumps :=
      if pc.type = .lion ∨ pc.type = .tiger then
        (jump_candidates pc.type r c).filterMap (jump_emit b r c pc captures_only)
      else []
    ortho ++ jumps

/-- `generate_all_valid_moves` (the 504-move output cap of the C code can
never bind: at most 63 pieces × at most 7 moves each). -/
def generate_all_valid_moves (b : Board) (player : Player) (captures_only : Bool) :
    List Move :=
  allCoords.flatMap fun rc =>
    match (b.squares rc.1 rc.2).piece with
    | some pc =>
      if pc.player = player then rules_get_valid_moves_for_piece b rc.1 rc.2 captures_only
      else []
    | none => []

/-- The number of pieces of `player` on the board (the `p0c`/`p1c` counts of
`rules_get_game_status` and `evaluate_board_internal`). -/
def count_pieces (b : Board) (player : Player) : Nat :=
  allCoords.countP fun rc =>
    match (b.squares rc.1 rc.2).piece with
    | some pc => pc.player = player
    | none => false

/-- `rules_get_game_status`. -/
def rules_get_game_status (b : Board) : GameStatus :=
  let p0c := count_pieces b .p0
  let p1c := count_pieces b .p1
  let p0d := allCoords.any fun rc =>
    match (b.squares rc.1 rc.2).piece with
    | some pc => pc.player = .p0 ∧ (b.squares rc.1 rc.2).terrain = .player1Den
    | none => false
  let p1d := allCoords.any fun rc =>
    match (b.squares rc.1 rc.2).piece with
    | some pc => pc.player = .p1 ∧ (b.squares rc.1 rc.2).terrain = .player0Den
    | none => false
  if p0d then .player0Wins
  else if p1d then .player1Wins
  else if p1c = 0 ∧ 0 < p0c then .player0Wins
  else if p0c = 0 ∧ 0 < p1c then .player1Wins
  else if p0c = 0 ∧ p1c = 0 then .draw
  else .ongoing

/-! ## Move simulation with incremental hash update -/

/-- `simulate_move_and_update_hash`: copy the board, place the canonical
moving piece on the destination, erase the origin (the C code erases after
placing, so erasure wins when origin = destination), and XOR-update the hash. -/
def simulate_move_and_update_hash (b : Board) (m : Move)
    (moved_piece_original_type : PieceType) (player : Player) (h : Nat) : Board × Nat :=
  let moving_piece_data : Piece :=
    ⟨moved_piece_original_type, player,
     (PIECE_INFO moved_piece_original_type).1, (PIECE_INFO moved_piece_original_type).2⟩
  let next : Board :=
    ⟨fun r c =>
      if r = m.from_row ∧ c = m.from_col then
        { terrain := (b.squares r c).terrain, piece := none }
      else if r = m.to_row ∧ c = m.to_col then
        { terrain := (b.squares r c).terrain, piece := some moving_piece_data }
      else b.squares r c⟩
  let h1 := h ^^^ zobrist_table moved_piece_original_type player m.from_row m.from_col
  let h2 :=
    match m.captured_piece_type with
    | none => h1
    | some ct => h1 ^^^ zobrist_table ct (get_opponent player) m.to_row m.to_col
  let h3 := h2 ^^^ zobrist_table moved_piece_original_type player m.to_row m.to_col
  (next, h3 ^^^ zobrist_player1_to_move)

/-! ## Evaluation (`evaluate_board_internal`) -/

def is_key_sq_p0 (r c : Nat) : Bool :=
  (decide (r = 4) && (decide (c = 2) || decide (c = 3) || decide (c = 4))) ||
  (decide (r = 1) && (decide (c = 2) || decide (c = 4))) ||
  (decide (r = 2) && decide (c = 3))

def is_key_sq_p1 (r c : Nat) : Bool :=
  (decide (r = 4) && (decide (c = 2) || decide (c = 3) || decide (c = 4))) ||
  (decide (r = 7) && (decide (c = 2) || decide (c = 4))) ||
  (decide (r = 6) && decide (c = 3))

/-- C `(int)` truncation of a (modelled) double: round toward zero. -/
def truncQ (q : ℚ) : Int := if 0 ≤ q then ⌊q⌋ else -⌊-q⌋

/-- The heuristic contribution of the piece `pce` standing at `rc`
(the body of the `evaluate_board_internal` per-square loop, with the C float
constants as exact rationals). -/
def piece_eval (b : Board) (rc : Fin 9 × Fin 7) (pce : Piece) : ℚ :=
  let r := rc.1.val
  let c := rc.2.val
  let v : ℚ := (pce.value : ℚ)
  let material := v * 1
  let adv : ℚ := if pce.player = .p1 then (r : ℚ) else (8 : ℚ) - (r : ℚ)
  let advancement := adv * (2 / 10) * (v / 150)
  let defense :=
    if pce.type ≠ .rat then
      (if pce.player = .p1 ∧ r < 3 then ((r : ℚ) - 3) * (-(7 / 10)) * (v / 100) else 0) +
      (if pce.player = .p0 ∧ 5 < r then (((8 : ℚ) - (r : ℚ)) - 3) * (-(7 / 10)) * (v / 100) else 0)
    else 0
  let trapped :=
    if rules_get_effective_rank (some pce) rc.1 rc.2 b = 0 ∧
        (b.squares rc.1 rc.2).terrain = .trap then (-3) * (v / 100) else 0
  let key :=
    if (pce.player = .p0 ∧ is_key_sq_p0 r c = true) ∨
       (pce.player = .p1 ∧ is_key_sq_p1 r c = true) then (3 / 10) * (v / 100) else 0
  let den_r : Int := if pce.player = .p1 then PLAYER0_DEN_ROW else PLAYER1_DEN_ROW
  let den_c : Int := if pce.player = .p1 then PLAYER0_DEN_COL else PLAYER1_DEN_COL
  let d_den : ℚ := ((((r : Int) - den_r).natAbs + ((c : Int) - den_c).natAbs : Nat) : ℚ)
  let adv_f : ℚ :=
    if (pce.player = .p1 ∧ r < 4) ∨ (pce.player = .p0 ∧ 4 < r) then 1 / 10 else 1
  let den_prox := max 0 ((15 : ℚ) - d_den) * 6 * (v / 100) * adv_f
  let threat :=
    ((ortho_targets rc.1 rc.2).map fun q =>
      if h : 0 ≤ q.1 ∧ q.1 < 9 ∧ 0 ≤ q.2 ∧ q.2 < 7 then
        let nr' : Fin 9 := ⟨q.1.toNat, by omega⟩
        let nc' : Fin 7 := ⟨q.2.toNat, by omega⟩
        match (b.squares nr' nc').piece with
        | some tgt =>
          if tgt.player ≠ pce.player ∧
              rules_can_capture (some pce) (some tgt) rc.1 rc.2 nr' nc' b = true then
            (tgt.value : ℚ) * (15 / 10) / 100
          else 0
        | none => 0
      else 0).sum
  material + advancement + defense + trapped + key + den_prox + threat

/-- `evaluate_board_internal`. -/
def evaluate_board_internal (b : Board) : Int :=
  match rules_get_game_status b with
  | .player1Wins => WIN_SCORE
  | .player0Wins => LOSE_SCORE
  | .draw => DRAW_SCORE
  | .ongoing =>
    let ai_s : ℚ :=
      (allCoords.map fun rc =>
        match (b.squares rc.1 rc.2).piece with
        | some pc => if pc.player = .p1 then piece_eval b rc pc else 0
        | none => 0).sum
    let pl_s : ℚ :=
      (allCoords.map fun rc =>
        match (b.squares rc.1 rc.2).piece with
        | some pc => if pc.player = .p0 then piece_eval b rc pc else 0
        | none => 0).sum
    let p0_ct := count_pieces b .p0
    let p1_ct := count_pieces b .p1
    if p1_ct = 0 ∧ 0 < p0_ct then LOSE_SCORE
    else if p0_ct = 0 ∧ 0 < p1_ct then WIN_SCORE
    else truncQ (ai_s - pl_s)

/-! ## Engine state: transposition table, killers, history, clock -/

inductive HashFlag where
  | HASH_EXACT | HASH_LOWERBOUND | HASH_UPPERBOUND
deriving DecidableEq, Repr

/-- `TTEntry` (the C pair `best_move`/`best_move_valid` becomes `Option Move`;
the C code only reads `best_move` under `best_move_valid`). -/
structure TTEntry where
  hash_key : Nat
  score : Int
  depth : Int
  flag : HashFlag
  best_move : Option Move
deriving DecidableEq, Repr

/-- The engine's mutable globals plus the host clock.  `times` is the oracle
of `emscripten_get_now()` readings; each time check consumes reading `clk`.
`path` is the caller-owned `path_hashes` array (shared and mutated in place
by the C search, including stale writes visible to later siblings). -/
structure EngineState where
  tt : Nat → TTEntry
  killers : Nat → Option Move × Option Move
  history : Nat → Int
  nodes : Nat
  path : Nat → Nat
  clk : Nat
  times : Nat → Int
  start : Int
  limit : Int

/-- Reinterpret a 64-bit pattern as the signed `int64_t` value. -/
def toInt64 (n : Nat) : Int := if n < 2 ^ 63 then (n : Int) else (n : Int) - 2 ^ 64

/-- `(current_hash >= 0 ? current_hash : -current_hash) % TRANSPOSITION_TABLE_SIZE`. -/
def tt_index (h : Nat) : Nat := (toInt64 h).natAbs % TRANSPOSITION_TABLE_SIZE

/-- `get_history_index`. -/
def get_history_index (pt : PieceType) (to_r : Fin 9) (to_c : Fin 7) : Nat :=
  ptIndex pt * (9 * 7) + to_r.val * 7 + to_c.val

/-- One `emscripten_get_now() - start_search_time_ms > current_time_limit_ms`
check: consumes the next clock reading. -/
def check_time (s : EngineState) : Bool × EngineState :=
  (decide (s.times s.clk - s.start > s.limit), { s with clk := s.clk + 1 })

/-- Equality of the from/to squares of two moves (the comparison used for the
TT move, killers and `record_killer_move`). -/
def move_same_sq (a m : Move) : Bool :=
  decide (a.from_row = m.from_row) && decide (a.from_col = m.from_col) &&
  decide (a.to_row = m.to_row) && decide (a.to_col = m.to_col)

/-- `record_killer_move`. -/
def record_killer_move (ply : Nat) (m : Move) (s : EngineState) : EngineState :=
  if ply < MAX_PLY_FOR_KILLERS then
    let k := s.killers ply
    let shift : Bool :=
      match k.1 with
      | none => true
      | some k0 => !(move_same_sq k0 m)
    if shift then { s with killers := Function.update s.killers ply (some m, k.1) }
    else s
  else s

/-! ## Move ordering (`order_moves`) -/

/-- The ordering score assigned to one move. -/
def score_move (s : EngineState) (tt_move : Option Move) (ply : Int) (m : Move) : Int :=
  let tt_hit : Bool :=
    match tt_move with
    | some tm => move_same_sq m tm
    | none => false
  if tt_hit then 200000
  else if m.captured_piece_type.isSome then
    match m.captured_piece_type with
    | some victim => 100000 + (PIECE_INFO victim).2 * 100 - (PIECE_INFO m.piece_type).2
    | none => 0
  else if 0 ≤ ply ∧ ply < (MAX_PLY_FOR_KILLERS : Int) then
    let k := s.killers ply.toNat
    let k0_hit : Bool := match k.1 with | some k0 => move_same_sq m k0 | none => false
    let k1_hit : Bool := match k.2 with | some k1 => move_same_sq m k1 | none => false
    if k0_hit then 90000
    else if k1_hit then 80000
    else s.history (get_history_index m.piece_type m.to_row m.to_col)
  else s.history (get_history_index m.piece_type m.to_row m.to_col)

/-- One full adjacent-swap pass of the C bubble sort (descending by
`order_score`). -/
def bubble_pass : List Move → List Move
  | [] => []
  | [a] => [a]
  | a :: b :: rest =>
    if a.order_score < b.order_score then b :: bubble_pass (a :: rest)
    else a :: bubble_pass (b :: rest)
termination_by l => l.length

/-- `n` bubble passes.  The C inner loop shortens each pass over the already
settled tail, where no further swap can fire, so full passes compute the same
list. -/
def bubble_iter : Nat → List Move → List Move
  | 0, l => l
  | n + 1, l => bubble_iter n (bubble_pass l)

/-- `order_moves`: assign ordering scores, then bubble sort descending. -/
def order_moves (moves : List Move) (tt_move : Option Move) (ply : Int)
    (s : EngineState) : List Move :=
  let scored := moves.map fun m => { m with order_score := score_move s tt_move ply m }
  bubble_iter (scored.length - 1) scored

/-! ## Quiescence search -/

mutual

/-- `quiescence_search`. -/
def quiescence_search (b : Board) (hash : Nat) (alpha beta : Int) (is_max : Bool)
    (ply : Nat) (q_depth : Nat) (s : EngineState) : Int × EngineState :=
  let s1 := { s with nodes := s.nodes + 1 }
  let tc := check_time s1
  if tc.1 then (888888, tc.2)
  else
    let s2 := tc.2
    let stand_pat := evaluate_board_internal b
    if hq : MAX_Q_DEPTH ≤ q_depth then (stand_pat, s2)
    else
      if is_max ∧ stand_pat ≥ beta then (beta, s2)
      else if ¬is_max ∧ stand_pat ≤ alpha then (alpha, s2)
      else
        let alpha1 := if is_max then max alpha stand_pat else alpha
        let beta1 := if is_max then beta else min beta stand_pat
        let player_to_move : Player := if is_max then .p1 else .p0
        let caps := generate_all_valid_moves b player_to_move true
        let ordered := order_moves caps none (-1) s2
        q_loop ordered b hash alpha1 beta1 is_max ply q_depth s2 (by omega)
termination_by ((MAX_Q_DEPTH + 1 - q_depth) * 2 + 1, 0)

/-- The capture loop of `quiescence_search`. -/
def q_loop (ms : List Move) (b : Board) (hash : Nat) (alpha beta : Int)
    (is_max : Bool) (ply : Nat) (q_depth : Nat) (s : EngineState)
    (hq : q_depth < MAX_Q_DEPTH) : Int × EngineState :=
  match ms with
  | [] => (if is_max then alpha else beta, s)
  | m :: rest =>
    let sim := simulate_move_and_update_hash b m m.piece_type
      (if is_max then .p1 else .p0) hash
    let r := quiescence_search sim.1 sim.2 alpha beta (!is_max) ply (q_depth + 1) s
    if r.1 = 888888 then (888888, r.2)
    else if is_max then
      let alpha1 := max alpha r.1
      if alpha1 ≥ beta then (beta, r.2)
      else q_loop rest b hash alpha1 beta is_max ply q_depth r.2 hq
    else
      let beta1 := min beta r.1
      if alpha ≥ beta1 then (alpha, r.2)
      else q_loop rest b hash alpha beta1 is_max ply q_depth r.2 hq
termination_by ((MAX_Q_DEPTH + 1 - q_depth) * 2, ms.length)

end

/-! ## Alpha-beta search -/

/-- Outcome of the move loop of `alpha_beta`. -/
inductive LoopOut where
  | abortedLoop (s : EngineState)
  | done (best : Int) (bm : Option Move) (betaF : Int) (s : EngineState)

/-- Outcome of the body of `alpha_beta` before the TT store. -/
inductive ABOutcome where
  | early (score : Int) (s : EngineState)
  | aborted (s : EngineState)
  | loop_done (best : Int) (bm : Option Move) (alpha0 betaF : Int) (s : EngineState)

/-- The TT probe block of `alpha_beta` (lines 500–505): returns an optional
cutoff score and the (possibly tightened) window. -/
def tt_probe (e : TTEntry) (hash : Nat) (depth alpha beta : Int) (ply : Nat) :
    Option Int × Int × Int :=
  if e.hash_key = hash ∧ e.depth ≥ depth ∧ 0 < ply then
    if e.flag = .HASH_EXACT then (some e.score, alpha, beta)
    else
      let alpha1 := if e.flag = .HASH_LOWERBOUND then max alpha e.score else alpha
      let beta1 := if e.flag = .HASH_UPPERBOUND then min beta e.score else beta
      if alpha1 ≥ beta1 then (some e.score, alpha1, beta1) else (none, alpha1, beta1)
  else (none, alpha, beta)

/-- The repetition check of `alpha_beta` (lines 483–493): the outer loop scans
`path_hashes[0 .. path_hash_count)`, the inner count scans the inclusive range
`[0 .. path_hash_count]` (one-past-the-end, a stale slot). -/
def rep_draw_check (path : Nat → Nat) (count : Nat) (hash : Nat) (ply : Nat) : Bool :=
  ((List.range count).any fun i => decide (path i = hash)) &&
  decide (2 ≤ (List.range (count + 1)).countP fun j => decide (path j = hash)) &&
  decide (0 < ply)

/-- The always-replace TT store of `alpha_beta` (lines 610–621). -/
def tt_store (s : EngineState) (hash : Nat) (best depth alpha_orig betaF : Int)
    (bm : Option Move) : EngineState :=
  { s with
    tt := Function.update s.tt (tt_index hash)
      ⟨hash, best, depth,
       (if best ≤ alpha_orig then .HASH_UPPERBOUND
        else if best ≥ betaF then .HASH_LOWERBOUND
        else .HASH_EXACT), bm⟩ }

mutual

/-- The move loop of `alpha_beta` (lines 556–607), including LMR, the LMR
re-search, timeout propagation and the killer/history updates on cutoff. -/
def ab_loop (ms : List Move) (b : Board) (hash : Nat) (depth : Int)
    (alpha beta : Int) (is_max : Bool) (ply : Nat) (count : Nat)
    (best : Int) (bm : Option Move) (msf : Nat) (s : EngineState)
    (hd : 0 < depth) : LoopOut :=
  match ms with
  | [] => .done best bm beta s
  | m :: rest =>
    let sim := simulate_move_and_update_hash b m m.piece_type
      (if is_max then .p1 else .p0) hash
    let lmr : Bool := decide (3 ≤ depth) && decide (LMR_MOVES_TRIED_THRESHOLD ≤ msf) &&
      decide (m.captured_piece_type = none) && decide (ply ≠ 0)
    let csd := if lmr then depth - 1 - 1 else depth - 1
    let r1 := alpha_beta sim.1 sim.2 csd alpha beta (!is_max) (ply + 1) (count + 1) true s
    let r2 :=
      if csd < depth - 1 ∧ r1.1 > alpha ∧ r1.1 ≠ 888888 then
        alpha_beta sim.1 sim.2 (depth - 1) alpha beta (!is_max) (ply + 1) (count + 1) true r1.2
      else r1
    if r2.1 = 888888 then .abortedLoop r2.2
    else
      let score := r2.1
      let bestPair :=
        if is_max then (if score > best then (score, some m) else (best, bm))
        else (if score < best then (score, some m) else (best, bm))
      let best1 := bestPair.1
      let bm1 := bestPair.2
      let alpha1 := if is_max then max alpha best1 else alpha
      let beta1 := if is_max then beta else min beta best1
      if alpha1 ≥ beta1 then
        let s3 :=
          if m.captured_piece_type = none then
            let sk := record_killer_move ply m r2.2
            let idx := get_history_index m.piece_type m.to_row m.to_col
            { sk with history := Function.update sk.history idx (sk.history idx + depth * depth) }
          else r2.2
        .done best1 bm1 beta1 s3
      else ab_loop rest b hash depth alpha1 beta1 is_max ply count best1 bm1 (msf + 1) r2.2 hd
termination_by (depth.toNat, 0, ms.length)

/-- `alpha_beta` after the NMP block: move generation, the no-moves mate
score, TT-hinted ordering, and the move loop. -/
def ab_main (b : Board) (hash : Nat) (depth : Int) (alpha1 beta1 : Int)
    (is_max : Bool) (ply : Nat) (count : Nat) (s : EngineState)
    (hd : 0 < depth) : ABOutcome :=
  let current_player : Player := if is_max then .p1 else .p0
  let moves := generate_all_valid_moves b current_player false
  if moves = [] then
    .early (if is_max then LOSE_SCORE + (ply : Int) else WIN_SCORE - (ply : Int)) s
  else
    let e := s.tt (tt_index hash)
    let ttm : Option Move := if e.hash_key = hash then e.best_move else none
    let ordered := order_moves moves ttm (ply : Int) s
    let init_best : Int := if is_max then INT_MIN else INT_MAX
    match ab_loop ordered b hash depth alpha1 beta1 is_max ply count init_best none 0 s hd with
    | .abortedLoop s2 => .aborted s2
    | .done best bm betaF s2 => .loop_done best bm alpha1 betaF s2
termination_by (depth.toNat, 1, 0)

/-- The body of `alpha_beta` up to (but not including) the TT store:
node count, time check, repetition check, path push, TT probe, terminal
check, quiescence hand-off, and null-move pruning. -/
def alpha_beta_core (b : Board) (hash : Nat) (depth : Int) (alpha beta : Int)
    (is_max : Bool) (ply : Nat) (count : Nat) (allow_null : Bool)
    (s : EngineState) : ABOutcome :=
  let s1 := { s with nodes := s.nodes + 1 }
  let tc := check_time s1
  if tc.1 then .early 888888 tc.2
  else
    let s2 := tc.2
    if rep_draw_check s2.path count hash ply then .early DRAW_SCORE s2
    else
      let s3 := { s2 with path := Function.update s2.path count hash }
      let e := s3.tt (tt_index hash)
      let probe := tt_probe e hash depth alpha beta ply
      match probe.1 with
      | some sc => .early sc s3
      | none =>
        let alpha1 := probe.2.1
        let beta1 := probe.2.2
        match rules_get_game_status b with
        | .player1Wins => .early (WIN_SCORE - (ply : Int)) s3
        | .player0Wins => .early (LOSE_SCORE + (ply : Int)) s3
        | .draw => .early DRAW_SCORE s3
        | .ongoing =>
          if hdep : depth ≤ 0 then
            let q := quiescence_search b hash alpha1 beta1 is_max ply 0 s3
            .early q.1 q.2
          else if hnmp : allow_null = true ∧ NMP_REDUCTION + 1 ≤ depth ∧ ply ≠ 0 then
            let null_hash := hash ^^^ zobrist_player1_to_move
            let rn := alpha_beta b null_hash (depth - 1 - NMP_REDUCTION) (-beta1) (-beta1 + 1)
              (!is_max) (ply + 1) (count + 1) false s3
            let null_score := -rn.1
            if null_score = -888888 then .early 888888 rn.2
            else if null_score ≥ beta1 then
              -- The C source has a special case for deep mate scores here, but
              -- both of its branches return beta, so the node always prunes.
              if null_score ≥ WIN_SCORE - (MAX_PLY_FOR_KILLERS : Int) * 2 then .early beta1 rn.2
              else .early beta1 rn.2
            else ab_main b hash depth alpha1 beta1 is_max ply count rn.2 (by omega)
          else ab_main b hash depth alpha1 beta1 is_max ply count s3 (by omega)
termination_by (depth.toNat, 2, 0)
decreasing_by all_goals first
  | decreasing_tactic
  | (simp only [NMP_REDUCTION] at *; decreasing_tactic)

/-- `alpha_beta`: the core body followed by the guarded TT store. -/
def alpha_beta (b : Board) (hash : Nat) (depth : Int) (alpha beta : Int)
    (is_max : Bool) (ply : Nat) (count : Nat) (allow_null : Bool)
    (s : EngineState) : Int × EngineState :=
  match alpha_beta_core b hash depth alpha beta is_max ply count allow_null s with
  | .early sc s2 => (sc, s2)
  | .aborted s2 => (888888, s2)
  | .loop_done best bm alpha0 betaF s2 =>
    if best ≠ 888888 then (best, tt_store s2 hash best depth alpha0 betaF bm)
    else (best, s2)
termination_by (depth.toNat, 3, 0)

end

/-! ## Search driver (`findBestMoveWasm`) -/

/-- The engine state right after `findBestMoveWasm`'s prologue: limits set,
`start` read from the clock (reading 0), counters reset, and
`initializeAiEngine` run (TT cleared to zeroed entries with `depth = -1`,
killers and history cleared).  `path0` is the uninitialised stack array
`path_hashes_main`. -/
def init_state (times : Nat → Int) (time_limit_ms : Int) (path0 : Nat → Nat) :
    EngineState :=
  { tt := fun _ => ⟨0, 0, -1, .HASH_EXACT, none⟩
    killers := fun _ => (none, none)
    history := fun _ => 0
    nodes := 0
    path := path0
    clk := 1
    times := times
    start := times 0
    limit := time_limit_ms }

/-- The root-move loop of one iterative-deepening iteration (lines 688–705).
`none` in the first component models the `goto end_search_label` on timeout. -/
def root_loop (ms : List Move) (b : Board) (root_hash : Nat) (d : Int)
    (iter_score : Int) (iter_best : Move) (s : EngineState) :
    Option (Int × Move) × EngineState :=
  match ms with
  | [] => (some (iter_score, iter_best), s)
  | m :: rest =>
    let sim := simulate_move_and_update_hash b m m.piece_type .p1 root_hash
    let s1 := { s with path := Function.update s.path 0 sim.2 }
    let r := alpha_beta sim.1 sim.2 (d - 1) INT_MIN INT_MAX false 0 0 true s1
    if r.1 = 888888 then (none, r.2)
    else if r.1 > iter_score then root_loop rest b root_hash d r.1 m r.2
    else root_loop rest b root_hash d iter_score iter_best r.2

/-- The iterative-deepening loop (lines 671–718).  Returns the committed
(best move, best score, depth achieved) and the final state. -/
def id_loop (b : Board) (roots : List Move) (d max_depth : Int) (best : Move)
    (best_score : Int) (depth_achieved : Int) (s : EngineState) :
    Move × Int × Int × EngineState :=
  if hgt : max_depth < d then (best, best_score, depth_achieved, s)
  else
    let tc := check_time s
    if tc.1 then (best, best_score, depth_achieved, tc.2)
    else
      let s1 := tc.2
      let iter_best0 := roots.headI
      let root_hash := compute_zobrist_key_full b .p1
      let e := s1.tt (tt_index root_hash)
      let ttm : Option Move :=
        if e.hash_key = root_hash ∧ e.best_move.isSome then e.best_move else none
      let sorted := order_moves roots ttm (-1) s1
      match root_loop sorted b root_hash d INT_MIN iter_best0 s1 with
      | (none, s2) => (best, best_score, depth_achieved, s2)
      | (some (iScore, iMove), s2) =>
        let tc2 := check_time s2
        if tc2.1 then (best, best_score, depth_achieved, tc2.2)
        else if iScore > WIN_SCORE - (MAX_PLY_FOR_KILLERS : Int) * 2 ∨
            iScore < LOSE_SCORE + (MAX_PLY_FOR_KILLERS : Int) * 2 then
          (iMove, iScore, d, tc2.2)
        else id_loop b sorted (d + 1) max_depth iMove iScore d tc2.2
termination_by (max_depth + 1 - d).toNat

/-- `findBestMoveWasm`.  The board is taken already deserialised (the flat
integer vector is the caller's transport format); `times` is the clock
oracle, `path0` the initial contents of the stack array `path_hashes_main`,
and `result_buffer` the caller's 10-slot output buffer.  Returns the updated
buffer and the final engine state. -/
def findBestMoveWasm (b : Board) (max_depth : Int) (time_limit_ms : Int)
    (times : Nat → Int) (path0 : Nat → Nat) (result_buffer : Nat → Int) :
    (Nat → Int) × EngineState :=
  let s := init_state times time_limit_ms path0
  let root_moves := generate_all_valid_moves b .p1 false
  match root_moves with
  | [] => (Function.update (Function.update result_buffer 0 0) 9 1, s)
  | r0 :: _ =>
    let res := id_loop b root_moves 1 max_depth r0 INT_MIN 0 s
    let best := res.1
    let best_score := res.2.1
    let depth_achieved := res.2.2.1
    let sF := res.2.2.2
    let buf :=
      Function.update (Function.update (Function.update (Function.update
        (Function.update (Function.update (Function.update (Function.update
          (Function.update (Function.update result_buffer
            0 1)
            1 (best.from_row.val : Int))
            2 (best.from_col.val : Int))
            3 (best.to_row.val : Int))
            4 (best.to_col.val : Int))
            5 (ptIndex best.piece_type : Int))
            6 depth_achieved)
            7 (sF.nodes : Int))
            8 (if best_score = INT_MIN then 0 else best_score))
            9 0
    (buf, sF)

/-! ## Concrete-board fixtures (used by witnesses and counterexamples) -/

/-- The standard Jungle terrain layout described by the spec (§3). -/
def standardTerrain (r c : Nat) : TerrainType :=
  if r = 0 ∧ c = 3 then .player1Den
  else if r = 8 ∧ c = 3 then .player0Den
  else if (r = 0 ∧ (c = 2 ∨ c = 4)) ∨ (r = 1 ∧ c = 3) then .trap
  else if (r = 8 ∧ (c = 2 ∨ c = 4)) ∨ (r = 7 ∧ c = 3) then .trap
  else if rules_is_river r c = true then .water
  else .land

/-- A piece with the canonical rank/value of its type (as `deserialize_board`
builds them). -/
def mkPiece (pt : PieceType) (pl : Player) : Piece :=
  ⟨pt, pl, (PIECE_INFO pt).1, (PIECE_INFO pt).2⟩

/-- A board over the standard terrain holding the given pieces. -/
def boardOf (pieces : List (Nat × Nat × Piece)) : Board :=
  ⟨fun r c =>
    ⟨standardTerrain r.val c.val,
     (pieces.find? fun e => decide (e.1 = r.val) && decide (e.2.1 = c.val)).map (·.2.2)⟩⟩

/-! ## Projections on search outcomes (used to state theorems) -/

def ABOutcome.isLoopDone : ABOutcome → Bool
  | .loop_done _ _ _ _ _ => true
  | _ => false

def ABOutcome.bestOf : ABOutcome → Int
  | .loop_done best _ _ _ _ => best
  | .early sc _ => sc
  | .aborted _ => 888888

def ABOutcome.bmOf : ABOutcome → Option Move
  | .loop_done _ bm _ _ _ => bm
  | _ => none

def ABOutcome.alpha0Of : ABOutcome → Int
  | .loop_done _ _ a _ _ => a
  | _ => 0

def ABOutcome.betaFOf : ABOutcome → Int
  | .loop_done _ _ _ bf _ => bf
  | _ => 0

def ABOutcome.stateOf : ABOutcome → EngineState
  | .loop_done _ _ _ _ s => s
  | .early _ s => s
  | .aborted s => s

/-! ## Further definitions used by the claims -/

instance : Std.Associative (α := Nat) (· ^^^ ·) := ⟨Nat.xor_assoc⟩
instance : Std.Commutative (α := Nat) (· ^^^ ·) := ⟨Nat.xor_comm⟩

/-- The board part of the full Zobrist key (before the side-to-move key). -/
def boardKey (b : Board) : Nat := (allCoords.map (squareKey b)).foldr (· ^^^ ·) 0

/-- Play out a sequence of moves: each move must be produced by the move
generator for the side to move; the board, side and incrementally updated
hash are threaded through `simulate_move_and_update_hash`. -/
def apply_moves : Board → Player → Nat → List Move → Option (Board × Player × Nat)
  | b, p, h, [] => some (b, p, h)
  | b, p, h, m :: rest =>
    if m ∈ generate_all_valid_moves b p false then
      let sim := simulate_move_and_update_hash b m m.piece_type p h
      apply_moves sim.1 (get_opponent p) sim.2 rest
    else none

/-- The total number of pieces on the board. -/
def pieceCount (b : Board) : Nat :=
  allCoords.countP fun rc => (b.squares rc.1 rc.2).piece.isSome

/-- Board used by C8: Player1's only piece (a cat at (0,0)) is stuck — both
of its orthogonal neighbours hold Player0 elephants, which a cat can neither
capture nor pass, so Player1 has no legal moves at all. -/
def c8Board : Board :=
  boardOf [(0, 0, mkPiece .cat .p1), (0, 1, mkPiece .elephant .p0),
           (1, 0, mkPiece .elephant .p0)]

/-- The engine state of the C8 node at the point where its null-move search
starts: the prologue of `alpha_beta` has counted the node, consumed one clock
reading and pushed the node's hash 777 onto the path. -/
def c8S3 : EngineState :=
  { tt := fun _ => ⟨0, 0, -1, .HASH_EXACT, none⟩
    killers := fun _ => (none, none)
    history := fun _ => 0
    nodes := 1
    path := Function.update (fun _ => 0) 0 777
    clk := 2
    times := fun _ => 0
    start := 0
    limit := 1000 }

/-- The engine state after the C8 node's null-move search returns: one more
node counted, one more clock reading consumed, and the null-move child's
hash pushed at path index 1. -/
def c8S4 : EngineState :=
  { tt := fun _ => ⟨0, 0, -1, .HASH_EXACT, none⟩
    killers := fun _ => (none, none)
    history := fun _ => 0
    nodes := 2
    path := Function.update (Function.update (fun _ => 0) 0 777) 1
      (777 ^^^ zobrist_player1_to_move)
    clk := 3
    times := fun _ => 0
    start := 0
    limit := 1000 }

/-- Concrete board and degenerate move (origin = destination) used by the
C10 counterexample. -/
def c10Board : Board := boardOf [(0, 0, mkPiece .rat .p1)]

def c10Move : Move := ⟨0, 0, 0, 0, .rat, none, 0⟩

/-- Manhattan length of a move (orthogonal steps have length 1, river jumps
are longer). -/
def move_dist (m : Move) : Nat :=
  (((m.to_row.val : Int) - m.from_row.val).natAbs) +
  (((m.to_col.val : Int) - m.from_col.val).natAbs)

/-- `cell` lies strictly between a move's origin and destination on their
shared row or column (the river cells crossed by a jump). -/
def onJumpPath (m : Move) (cell : Nat × Nat) : Prop :=
  (m.from_col = m.to_col ∧ cell.2 = m.from_col.val ∧
    min m.from_row.val m.to_row.val < cell.1 ∧ cell.1 < max m.from_row.val m.to_row.val) ∨
  (m.from_row = m.to_row ∧ cell.1 = m.from_row.val ∧
    min m.from_col.val m.to_col.val < cell.2 ∧ cell.2 < max m.from_col.val m.to_col.val)

/-- The ordinary landing rules applied to a jump destination `(tr, tc)` for
the piece `pc` jumping from `(r, c)`: not the mover's own den, not water, and
any occupant must be a capturable enemy. -/
def jump_landing_ok (b : Board) (r : Fin 9) (c : Fin 7) (pc : Piece)
    (tr : Fin 9) (tc : Fin 7) : Prop :=
  (b.squares tr tc).terrain ≠ own_den_terrain pc.player ∧
  (b.squares tr tc).terrain ≠ .water ∧
  ∀ dp, (b.squares tr tc).piece = some dp →
    dp.player ≠ pc.player ∧ rules_can_capture (some pc) (some dp) r c tr tc b = true

/-- The number of occurrences of `hash` among `path[0 .. count)` (the
repetition count quantified over by the specification). -/
def occCount (path : Nat → Nat) (count : Nat) (hash : Nat) : Nat :=
  (List.range count).countP fun i => decide (path i = hash)

/-! ## Evaluating the LCG stream (binary splitting of `lcg_step` iterates) -/

theorem affineM_comp (a c a' c' A C x : Nat)
    (hA : A = a' * a % 2 ^ 64) (hC : C = (a' * c + c') % 2 ^ 64) :
    affineM a' c' (affineM a c x) = affineM A C x := by
  subst hA hC
  simp only [affineM]
  have h1 : a' * ((a * x + c) % 2 ^ 64) + c' ≡ a' * (a * x + c) + c' [MOD 2 ^ 64] :=
    ((Nat.mod_modEq _ _).mul_left a').add_right c'
  have h2 : a' * a % 2 ^ 64 * x + (a' * c + c') % 2 ^ 64 ≡
      a' * a * x + (a' * c + c') [MOD 2 ^ 64] :=
    ((Nat.mod_modEq _ _).mul_right x).add (Nat.mod_modEq _ _)
  have h3 : a' * (a * x + c) + c' = a' * a * x + (a' * c + c') := by ring
  exact h1.trans (h3 ▸ h2.symm)

theorem lcg_stream_iterate (n : Nat) :
    lcg_stream n = lcg_step^[n] 1234567890123456789 := by
  induction n with
  | zero => rfl
  | succ n ih =>
    rw [show lcg_stream (n + 1) = lcg_step (lcg_stream n) from rfl, ih,
      Function.iterate_succ_apply']

theorem lcg_iter_add (m n a c a' c' A C : Nat)
    (hm : lcg_step^[m] = affineM a c) (hn : lcg_step^[n] = affineM a' c')
    (hA : A = a * a' % 2 ^ 64) (hC : C = (a * c' + c) % 2 ^ 64) :
    lcg_step^[m + n] = affineM A C := by
  funext x
  rw [Function.iterate_add_apply, hm, hn, affineM_comp a' c' a c A C x hA hC]

theorem lcg_pow1 : lcg_step^[1] = affineM 6364136223846793005 1442695040888963407 := by
  funext x
  rw [Function.iterate_one]
  simp only [lcg_step, affineM, Nat.mul_comm]

theorem lcg_pow2 : lcg_step^[2] = affineM 7520897724310334953 1876011003808476466 :=
  lcg_iter_add 1 1 _ _ _ _ _ _ lcg_pow1 lcg_pow1 (by norm_num) (by norm_num)

theorem lcg_pow4 : lcg_step^[4] = affineM 18108194425815612945 7401132627792533940 :=
  lcg_iter_add 2 2 _ _ _ _ _ _ lcg_pow2 lcg_pow2 (by norm_num) (by norm_num)

theorem lcg_pow8 : lcg_step^[8] = affineM 13086856194709077281 6566661184467396264 :=
  lcg_iter_add 4 4 _ _ _ _ _ _ lcg_pow4 lcg_pow4 (by norm_num) (by norm_num)

theorem lcg_pow16 : lcg_step^[16] = affineM 10186629832379121217 3646985772805368400 :=
  lcg_iter_add 8 8 _ _ _ _ _ _ lcg_pow8 lcg_pow8 (by norm_num) (by norm_num)

theorem lcg_pow32 : lcg_step^[32] = affineM 10828933358287359105 982119659650238624 :=
  lcg_iter_add 16 16 _ _ _ _ _ _ lcg_pow16 lcg_pow16 (by norm_num) (by norm_num)

theorem lcg_pow64 : lcg_step^[64] = affineM 4910590176156014849 10607473198416945472 :=
  lcg_iter_add 32 32 _ _ _ _ _ _ lcg_pow32 lcg_pow32 (by norm_num) (by norm_num)

theorem lcg_pow128 : lcg_step^[128] = affineM 9908147928152388097 6914523672464851584 :=
  lcg_iter_add 64 64 _ _ _ _ _ _ lcg_pow64 lcg_pow64 (by norm_num) (by norm_num)

theorem lcg_pow256 : lcg_step^[256] = affineM 146241703003251713 4689171378020353280 :=
  lcg_iter_add 128 128 _ _ _ _ _ _ lcg_pow128 lcg_pow128 (by norm_num) (by norm_num)

theorem lcg_pow512 : lcg_step^[512] = affineM 7321387688379467777 8103286608563669504 :=
  lcg_iter_add 256 256 _ _ _ _ _ _ lcg_pow256 lcg_pow256 (by norm_num) (by norm_num)

theorem lcg_pow768 : lcg_step^[768] = affineM 6729348817315048449 2199424230349278976 :=
  lcg_iter_add 512 256 _ _ _ _ _ _ lcg_pow512 lcg_pow256 (by norm_num) (by norm_num)

theorem lcg_pow896 : lcg_step^[896] = affineM 14897638182427680257 7999052498722951552 :=
  lcg_iter_add 768 128 _ _ _ _ _ _ lcg_pow768 lcg_pow128 (by norm_num) (by norm_num)

theorem lcg_pow960 : lcg_step^[960] = affineM 7761124423752562433 18414571213784937152 :=
  lcg_iter_add 896 64 _ _ _ _ _ _ lcg_pow896 lcg_pow64 (by norm_num) (by norm_num)

theorem lcg_pow992 : lcg_step^[992] = affineM 6833514588100182913 7033010904033958752 :=
  lcg_iter_add 960 32 _ _ _ _ _ _ lcg_pow960 lcg_pow32 (by norm_num) (by norm_num)

theorem lcg_pow1008 : lcg_step^[1008] = affineM 13059273695383380417 6520686020664778160 :=
  lcg_iter_add 992 16 _ _ _ _ _ _ lcg_pow992 lcg_pow16 (by norm_num) (by norm_num)

theorem lcg_pow1009 : lcg_step^[1009] = affineM 14130574664659135981 9948177338374441279 :=
  lcg_iter_add 1008 1 _ _ _ _ _ _ lcg_pow1008 lcg_pow1 (by norm_num) (by norm_num)

/-- The concrete 64-bit value of the side-to-move Zobrist key. -/
theorem zobrist_player1_to_move_val :
    zobrist_player1_to_move = 3615707535740025520 := by
  rw [zobrist_player1_to_move, lcg_stream_iterate, lcg_pow1009]
  norm_num [affineM]

/-! # Claims

Each claim `Cn` of the specification is settled below by one theorem
(plus, where needed, a witness and/or a counterexample theorem).
-/

/-! ## C3: rat-in-water attacks on land targets -/

/-- Helper board for C3/C4: a Player1 Rat standing in the water at (3,1) and
a Player0 Elephant on land at (3,0). -/
def c3Board : Board := boardOf [(3, 1, mkPiece .rat .p1), (3, 0, mkPiece .elephant .p0)]

/-- C3 (counterexample): the claim asserts `rules_can_capture` returns `true`
for a Rat in water attacking an opposing Elephant on land.  On the concrete
board `c3Board` the attacker is a Rat on Water, the defender an opposing
Elephant on a non-Water square, yet `rules_can_capture` returns `false`:
the later Rat-versus-Elephant rule (`return att_terrain != TERRAIN_WATER`)
overrides the water carve-out. -/
theorem C3_counterexample :
    (c3Board.squares 3 1).piece = some (mkPiece .rat .p1) ∧
    (c3Board.squares 3 1).terrain = .water ∧
    (c3Board.squares 3 0).piece = some (mkPiece .elephant .p0) ∧
    (c3Board.squares 3 0).terrain ≠ .water ∧
    rules_can_capture (some (mkPiece .rat .p1)) (some (mkPiece .elephant .p0))
      3 1 3 0 c3Board = false := by
  decide

/-- C3 (amended): whenever the attacker is a Rat standing on Water and the
defender stands on a non-Water square, `rules_can_capture` returns `false` —
every land target attacked from water is forbidden, including the Elephant. -/
theorem C3_water_rat_cannot_capture_on_land (b : Board) (att dfd : Piece)
    (ar : Fin 9) (ac : Fin 7) (dr : Fin 9) (dc : Fin 7)
    (hatt : att.type = .rat)
    (hwater : (b.squares ar ac).terrain = .water)
    (hdef : (b.squares dr dc).terrain ≠ .water) :
    rules_can_capture (some att) (some dfd) ar ac dr dc b = false := by
  simp only [rules_can_capture]
  split_ifs with h1 h2 h3 h4 h5 <;> simp_all

/-- C3 (witness for the amended theorem). -/
theorem C3_water_rat_witness :
    rules_can_capture (some (mkPiece .rat .p0)) (some (mkPiece .elephant .p1))
      3 4 3 3 (boardOf [(3, 4, mkPiece .rat .p0), (3, 3, mkPiece .elephant .p1)]) = false :=
  C3_water_rat_cannot_capture_on_land _ _ _ _ _ _ _ (by decide) (by decide) (by decide)

/-! ## C4: rat/elephant special cases on land -/

/-- C4: for opposing pieces, an Elephant can never capture a Rat, and a Rat
standing on a non-Water square can always capture an Elephant, independently
of the pieces' (effective) ranks. -/
theorem C4_rat_elephant_special_cases (b : Board) (att dfd : Piece)
    (ar : Fin 9) (ac : Fin 7) (dr : Fin 9) (dc : Fin 7)
    (hop : att.player ≠ dfd.player) :
    (att.type = .elephant → dfd.type = .rat →
      rules_can_capture (some att) (some dfd) ar ac dr dc b = false) ∧
    (att.type = .rat → dfd.type = .elephant → (b.squares ar ac).terrain ≠ .water →
      rules_can_capture (some att) (some dfd) ar ac dr dc b = true) := by
  constructor
  · intro he hr
    simp only [rules_can_capture]
    split_ifs with h1 h2 h3 h4 h5 <;> simp_all
  · intro hr he hw
    simp only [rules_can_capture]
    split_ifs with h1 h2 h3 h4 <;> simp_all

/-- C4 (witness): both special cases applied on concrete boards; the Rat case
uses a Rat whose stored rank (1) is far below the Elephant's (8). -/
theorem C4_witness :
    rules_can_capture (some (mkPiece .elephant .p1)) (some (mkPiece .rat .p0))
      4 3 4 4 (boardOf [(4, 3, mkPiece .elephant .p1), (4, 4, mkPiece .rat .p0)]) = false ∧
    rules_can_capture (some (mkPiece .rat .p1)) (some (mkPiece .elephant .p0))
      4 3 4 4 (boardOf [(4, 3, mkPiece .rat .p1), (4, 4, mkPiece .elephant .p0)]) = true :=
  ⟨(C4_rat_elephant_special_cases _ _ _ _ _ _ _ (by decide)).1 (by decide) (by decide),
   (C4_rat_elephant_special_cases _ _ _ _ _ _ _ (by decide)).2 (by decide) (by decide) (by decide)⟩

/-! ## C9: terminal evaluation -/

/-- C9: on every board whose game status is terminal,
`evaluate_board_internal` returns exactly `WIN_SCORE`, `LOSE_SCORE` or
`DRAW_SCORE` respectively — the heuristic terms never contribute. -/
theorem C9_terminal_evaluation (b : Board) :
    (rules_get_game_status b = .player1Wins → evaluate_board_internal b = WIN_SCORE) ∧
    (rules_get_game_status b = .player0Wins → evaluate_board_internal b = LOSE_SCORE) ∧
    (rules_get_game_status b = .draw → evaluate_board_internal b = DRAW_SCORE) := by
  refine ⟨fun h => ?_, fun h => ?_, fun h => ?_⟩ <;>
    · unfold evaluate_board_internal
      rw [h]

/-- C9 (witness): the three terminal kinds realised on concrete boards:
Player1 win (Player1 Rat on Player0's den), Player0 win (Player0 Rat on
Player1's den), and the both-sides-empty draw. -/
theorem C9_witness :
    evaluate_board_internal (boardOf [(8, 3, mkPiece .rat .p1)]) = WIN_SCORE ∧
    evaluate_board_internal (boardOf [(0, 3, mkPiece .rat .p0)]) = LOSE_SCORE ∧
    evaluate_board_internal (boardOf []) = DRAW_SCORE :=
  ⟨(C9_terminal_evaluation _).1 (by decide),
   (C9_terminal_evaluation _).2.1 (by decide),
   (C9_terminal_evaluation _).2.2 (by decide)⟩

/-! ## C1: hash consistency -/

theorem compute_zobrist_key_full_eq (b : Board) (p : Player) :
    compute_zobrist_key_full b p =
      if p = .p1 then boardKey b ^^^ zobrist_player1_to_move else boardKey b := rfl

theorem allCoords_nodup : allCoords.Nodup := by decide

theorem mem_allCoords (rc : Fin 9 × Fin 7) : rc ∈ allCoords := by
  rcases rc with ⟨r, c⟩
  simp [allCoords, List.mem_flatMap]

theorem foldr_xor_map_xor {α : Type} (f g : α → Nat) (l : List α) :
    ((l.map f).foldr (· ^^^ ·) 0) ^^^ ((l.map g).foldr (· ^^^ ·) 0) =
      (l.map fun x => f x ^^^ g x).foldr (· ^^^ ·) 0 := by
  induction l with
  | nil => simp
  | cons a t ih =>
    simp only [List.map_cons, List.foldr_cons]
    rw [← ih]
    ac_rfl

theorem foldr_xor_all_zero {α : Type} (g : α → Nat) (l : List α)
    (h : ∀ x ∈ l, g x = 0) : (l.map g).foldr (· ^^^ ·) 0 = 0 := by
  induction l with
  | nil => simp
  | cons a t ih =>
    simp only [List.map_cons, List.foldr_cons]
    rw [h a (List.mem_cons_self a t), ih fun x hx => h x (List.mem_cons_of_mem a hx),
      Nat.zero_xor]

theorem foldr_xor_single {α : Type} (g : α → Nat) (l : List α) (a : α)
    (hnd : l.Nodup) (ha : a ∈ l) (h : ∀ x ∈ l, x ≠ a → g x = 0) :
    (l.map g).foldr (· ^^^ ·) 0 = g a := by
  induction l with
  | nil => cases ha
  | cons x t ih =>
    rcases List.mem_cons.mp ha with rfl | hat
    · have hz : ∀ y ∈ t, g y = 0 := fun y hy =>
        h y (List.mem_cons_of_mem _ hy) (by rintro rfl; exact (List.nodup_cons.mp hnd).1 hy)
      simp only [List.map_cons, List.foldr_cons]
      rw [foldr_xor_all_zero g t hz, Nat.xor_zero]
    · have hxa : x ≠ a := by rintro rfl; exact (List.nodup_cons.mp hnd).1 hat
      simp only [List.map_cons, List.foldr_cons]
      rw [h x (List.mem_cons_self _ _) hxa, Nat.zero_xor]
      exact ih (List.nodup_cons.mp hnd).2 hat
        fun y hy hya => h y (List.mem_cons_of_mem _ hy) hya

theorem foldr_xor_pair {α : Type} (g : α → Nat) (l : List α) (a b : α)
    (hnd : l.Nodup) (ha : a ∈ l) (hb : b ∈ l) (hab : a ≠ b)
    (h : ∀ x ∈ l, x ≠ a → x ≠ b → g x = 0) :
    (l.map g).foldr (· ^^^ ·) 0 = g a ^^^ g b := by
  induction l with
  | nil => cases ha
  | cons x t ih =>
    have hnd' := (List.nodup_cons.mp hnd).2
    have hxnt := (List.nodup_cons.mp hnd).1
    rcases List.mem_cons.mp ha with rfl | hat
    · have hbt : b ∈ t := by
        rcases List.mem_cons.mp hb with rfl | hbt
        · exact absurd rfl hab
        · exact hbt
      simp only [List.map_cons, List.foldr_cons]
      rw [foldr_xor_single g t b hnd' hbt]
      intro y hy hyb
      exact h y (List.mem_cons_of_mem _ hy) (by rintro rfl; exact hxnt hy) hyb
    · rcases List.mem_cons.mp hb with rfl | hbt
      · have hat' : a ∈ t := hat
        simp only [List.map_cons, List.foldr_cons]
        rw [foldr_xor_single g t a hnd' hat'
          fun y hy hya => h y (List.mem_cons_of_mem _ hy) hya
            (by rintro rfl; exact hxnt hy)]
        exact Nat.xor_comm _ _
      · have hxa : x ≠ a := by rintro rfl; exact hxnt hat
        have hxb : x ≠ b := by rintro rfl; exact hxnt hbt
        simp only [List.map_cons, List.foldr_cons]
        rw [h x (List.mem_cons_self _ _) hxa hxb, Nat.zero_xor]
        exact ih hnd' hat hbt fun y hy hya hyb => h y (List.mem_cons_of_mem _ hy) hya hyb

/-- Two boards that agree off `{a, b}` have full keys differing by the XOR of
the four square contributions at `a` and `b`. -/
theorem boardKey_two_point (b b' : Board) (a c : Fin 9 × Fin 7) (hac : a ≠ c)
    (hagree : ∀ rc : Fin 9 × Fin 7, rc ≠ a → rc ≠ c → squareKey b' rc = squareKey b rc) :
    boardKey b' =
      boardKey b ^^^ ((squareKey b a ^^^ squareKey b' a) ^^^ (squareKey b c ^^^ squareKey b' c)) := by
  have hdiff : (boardKey b) ^^^ (boardKey b') =
      (allCoords.map fun rc => squareKey b rc ^^^ squareKey b' rc).foldr (· ^^^ ·) 0 := by
    unfold boardKey
    exact foldr_xor_map_xor _ _ _
  have hpair : (allCoords.map fun rc => squareKey b rc ^^^ squareKey b' rc).foldr (· ^^^ ·) 0 =
      (squareKey b a ^^^ squareKey b' a) ^^^ (squareKey b c ^^^ squareKey b' c) := by
    refine foldr_xor_pair _ allCoords a c allCoords_nodup (mem_allCoords a) (mem_allCoords c)
      hac fun rc _ hra hrc => ?_
    rw [hagree rc hra hrc, Nat.xor_self]
  have := hdiff.trans hpair
  calc boardKey b' = boardKey b ^^^ (boardKey b ^^^ boardKey b') := by
        rw [← Nat.xor_assoc, Nat.xor_self, Nat.zero_xor]
    _ = boardKey b ^^^ ((squareKey b a ^^^ squareKey b' a) ^^^ (squareKey b c ^^^ squareKey b' c)) := by
        rw [this]

theorem step_move_some {b : Board} {r : Fin 9} {c : Fin 7} {pc : Piece} {co : Bool}
    {nr nc : Int} {m : Move} (h : step_move b r c pc co nr nc = some m) :
    m.from_row = r ∧ m.from_col = c ∧ m.piece_type = pc.type ∧
    (m.to_row.val : Int) = nr ∧ (m.to_col.val : Int) = nc ∧
    m.captured_piece_type = (b.squares m.to_row m.to_col).piece.map (·.type) ∧
    ∀ dp, (b.squares m.to_row m.to_col).piece = some dp → dp.player ≠ pc.player := by
  simp only [step_move] at h
  split at h
  case isFalse => simp at h
  case isTrue hin =>
    split at h
    case isTrue => simp at h
    case isFalse h1 =>
      split at h
      case isTrue => simp at h
      case isFalse h2 =>
        split at h
        case isTrue => simp at h
        case isFalse h3 =>
          split at h
          case h_1 tp heq =>
            split at h
            case isTrue => simp at h
            case isFalse h4 =>
              split at h
              case isFalse => simp at h
              case isTrue h5 =>
                obtain rfl := (Option.some.inj h).symm
                refine ⟨rfl, rfl, rfl, ?_, ?_, rfl, ?_⟩
                · simp [Int.toNat_of_nonneg hin.1]
                · simp [Int.toNat_of_nonneg hin.2.2.1]
                · intro dp hdp
                  rw [heq] at hdp
                  obtain rfl := Option.some.inj hdp
                  exact h4
          case h_2 heq =>
            obtain rfl := (Option.some.inj h).symm
            refine ⟨rfl, rfl, rfl, ?_, ?_, rfl, ?_⟩
            · simp [Int.toNat_of_nonneg hin.1]
            · simp [Int.toNat_of_nonneg hin.2.2.1]
            · intro dp hdp
              rw [heq] at hdp
              cases hdp

theorem jump_emit_some {b : Board} {r : Fin 9} {c : Fin 7} {pc : Piece} {co : Bool}
    {cand : (Nat × Nat) × List (Nat × Nat)} {m : Move}
    (h : jump_emit b r c pc co cand = some m) :
    m.from_row = r ∧ m.from_col = c ∧ m.piece_type = pc.type ∧
    m.to_row.val = cand.1.1 ∧ m.to_col.val = cand.1.2 ∧
    m.captured_piece_type = (b.squares m.to_row m.to_col).piece.map (·.type) ∧
    (∀ dp, (b.squares m.to_row m.to_col).piece = some dp → dp.player ≠ pc.player) ∧
    (∀ cell ∈ cand.2, rules_is_river cell.1 cell.2 = true ∧ (cellSquare b cell).piece = none) ∧
    (b.squares m.to_row m.to_col).terrain ≠ own_den_terrain pc.player ∧
    (b.squares m.to_row m.to_col).terrain ≠ .water ∧
    (∀ dp, (b.squares m.to_row m.to_col).piece = some dp →
      rules_can_capture (some pc) (some dp) r c m.to_row m.to_col b = true) := by
  simp only [jump_emit] at h
  split at h
  case isTrue => simp at h
  case isFalse hpath =>
    have hclear : ∀ cell ∈ cand.2,
        rules_is_river cell.1 cell.2 = true ∧ (cellSquare b cell).piece = none := by
      intro cell hcell
      constructor
      · cases hriv : rules_is_river cell.1 cell.2
        · exact absurd (List.any_eq_true.mpr ⟨cell, hcell, by simp [hriv]⟩) hpath
        · rfl
      · cases hocc : (cellSquare b cell).piece
        · rfl
        · exact absurd (List.any_eq_true.mpr ⟨cell, hcell, by simp [hocc]⟩) hpath
    split at h
    case isFalse => simp at h
    case isTrue hin =>
      split at h
      case isTrue => simp at h
      case isFalse h1 =>
        split at h
        case isTrue => simp at h
        case isFalse h2 =>
          split at h
          case isTrue => simp at h
          case isFalse h3 =>
            split at h
            case h_1 tp heq =>
              split at h
              case isTrue => simp at h
              case isFalse h4 =>
                split at h
                case isFalse => simp at h
                case isTrue h5 =>
                  obtain rfl := (Option.some.inj h).symm
                  refine ⟨rfl, rfl, rfl, rfl, rfl, rfl, ?_, hclear, h2, h3, ?_⟩
                  · intro dp hdp
                    rw [heq] at hdp
                    obtain rfl := Option.some.inj hdp
                    exact h4
                  · intro dp hdp
                    rw [heq] at hdp
                    obtain rfl := Option.some.inj hdp
                    rw [← heq]
                    exact h5
            case h_2 heq =>
              obtain rfl := (Option.some.inj h).symm
              refine ⟨rfl, rfl, rfl, rfl, rfl, rfl, ?_, hclear, h2, h3, ?_⟩ <;>
                · intro dp hdp
                  rw [heq] at hdp
                  cases hdp

theorem jump_candidates_facts {pt : PieceType} {r : Fin 9} {c : Fin 7}
    {cand : (Nat × Nat) × List (Nat × Nat)} (h : cand ∈ jump_candidates pt r c) :
    cand.1.1 < 9 ∧ cand.1.2 < 7 ∧ ¬(cand.1.1 = r.val ∧ cand.1.2 = c.val) := by
  have hc := c.isLt
  have hr := r.isLt
  simp only [jump_candidates] at h
  split_ifs at h <;>
    simp only [List.mem_append, List.mem_singleton, List.not_mem_nil, or_false,
      false_or] at h <;>
    first
      | exact h.elim
      | (rcases h with rfl | rfl | rfl <;>
          (simp only [rules_is_river, Bool.and_eq_true, Bool.or_eq_true,
            decide_eq_true_eq] at *; omega))

/-- In the two-valued player type, being different means being the opponent. -/
theorem player_ne_iff (a b : Player) : a ≠ b ↔ a = get_opponent b := by
  cases a <;> cases b <;> simp [get_opponent]

/-- Inversion for `rules_get_valid_moves_for_piece`: every emitted move
starts at the queried square with the piece standing there, never targets its
own square, records the destination occupant's type as captured type, and
never targets a friendly piece. -/
theorem moves_for_piece_mem {b : Board} {r : Fin 9} {c : Fin 7} {co : Bool} {m : Move}
    (h : m ∈ rules_get_valid_moves_for_piece b r c co) :
    ∃ pc, (b.squares r c).piece = some pc ∧ m.from_row = r ∧ m.from_col = c ∧
      m.piece_type = pc.type ∧
      ¬(m.to_row = r ∧ m.to_col = c) ∧
      m.captured_piece_type = (b.squares m.to_row m.to_col).piece.map (·.type) ∧
      (∀ dp, (b.squares m.to_row m.to_col).piece = some dp → dp.player ≠ pc.player) := by
  unfold rules_get_valid_moves_for_piece at h
  split at h
  case h_1 => cases h
  case h_2 pc hpc =>
    refine ⟨pc, hpc, ?_⟩
    simp only [List.mem_append] at h
    rcases h with h | h
    · -- orthogonal step
      obtain ⟨q, hq, hsm⟩ := List.mem_filterMap.mp h
      obtain ⟨h1, h2, h3, h4, h5, h6, h7⟩ := step_move_some hsm
      refine ⟨h1, h2, h3, ?_, h6, h7⟩
      simp only [ortho_targets, List.mem_cons, List.not_mem_nil, or_false] at hq
      rintro ⟨rfl, rfl⟩
      have h4' := h4
      have h5' := h5
      rcases hq with rfl | rfl | rfl | rfl <;> simp_all <;> omega
    · -- river jump
      split at h
      case isFalse => cases h
      case isTrue hlt =>
        obtain ⟨cand, hcand, hje⟩ := List.mem_filterMap.mp h
        obtain ⟨h1, h2, h3, h4, h5, h6, h7, -, -, -, -⟩ := jump_emit_some hje
        obtain ⟨_, _, hne⟩ := jump_candidates_facts hcand
        refine ⟨h1, h2, h3, ?_, h6, h7⟩
        rintro ⟨rfl, rfl⟩
        exact hne ⟨h4.symm, h5.symm⟩

/-- Inversion for `generate_all_valid_moves`: additionally, the moving piece
belongs to `player` and any captured piece to the opponent. -/
theorem generate_all_valid_moves_mem {b : Board} {player : Player} {co : Bool} {m : Move}
    (h : m ∈ generate_all_valid_moves b player co) :
    ∃ pc, (b.squares m.from_row m.from_col).piece = some pc ∧ pc.player = player ∧
      m.piece_type = pc.type ∧
      ¬(m.to_row = m.from_row ∧ m.to_col = m.from_col) ∧
      m.captured_piece_type = (b.squares m.to_row m.to_col).piece.map (·.type) ∧
      (∀ dp, (b.squares m.to_row m.to_col).piece = some dp → dp.player = get_opponent player) := by
  unfold generate_all_valid_moves at h
  obtain ⟨rc, _, hm⟩ := List.mem_flatMap.mp h
  revert hm
  split
  case h_2 => exact fun hm => absurd hm (List.not_mem_nil m)
  case h_1 pc hpc =>
    intro hm
    split_ifs at hm with hpl
    case pos =>
      obtain ⟨pc', hpc', hfr, hfc, hty, hne, hcap, hopp⟩ := moves_for_piece_mem hm
      rw [hpc] at hpc'
      obtain rfl := Option.some.inj hpc'
      rw [hfr, hfc]
      refine ⟨pc, hpc, hpl, hty, hne, hcap, fun dp hdp => ?_⟩
      have hdpp := hopp dp hdp
      rw [hpl] at hdpp
      exact (player_ne_iff dp.player player).mp hdpp
    case neg => exact absurd hm (List.not_mem_nil m)

/-- The board produced by `simulate_move_and_update_hash`, squarewise. -/
theorem simulate_squares (b : Board) (m : Move) (t : PieceType) (p : Player) (h : Nat) :
    (simulate_move_and_update_hash b m t p h).1.squares = fun r c =>
      if r = m.from_row ∧ c = m.from_col then ⟨(b.squares r c).terrain, none⟩
      else if r = m.to_row ∧ c = m.to_col then
        ⟨(b.squares r c).terrain, some ⟨t, p, (PIECE_INFO t).1, (PIECE_INFO t).2⟩⟩
      else b.squares r c := rfl

/-- The hash produced by `simulate_move_and_update_hash`. -/
theorem simulate_hash (b : Board) (m : Move) (t : PieceType) (p : Player) (h : Nat) :
    (simulate_move_and_update_hash b m t p h).2 =
      ((match m.captured_piece_type with
        | none => h ^^^ zobrist_table t p m.from_row m.from_col
        | some ct => (h ^^^ zobrist_table t p m.from_row m.from_col) ^^^
            zobrist_table ct (get_opponent p) m.to_row m.to_col) ^^^
       zobrist_table t p m.to_row m.to_col) ^^^ zobrist_player1_to_move := rfl

/-- The side-to-move bookkeeping of the incremental update. -/
theorem hash_update_algebra (A D z h : Nat) (p : Player)
    (hh : h = if p = .p1 then A ^^^ z else A) :
    (h ^^^ D) ^^^ z = (if get_opponent p = .p1 then (A ^^^ D) ^^^ z else A ^^^ D) := by
  cases p
  · rw [show get_opponent Player.p0 = Player.p1 from rfl, if_pos rfl]
    rw [if_neg (by decide)] at hh
    subst hh
    rfl
  · rw [show get_opponent Player.p1 = Player.p0 from rfl, if_neg (by decide)]
    rw [if_pos rfl] at hh
    subst hh
    calc ((A ^^^ z) ^^^ D) ^^^ z = (A ^^^ D) ^^^ (z ^^^ z) := by ac_rfl
      _ = A ^^^ D := by rw [Nat.xor_self, Nat.xor_zero]

/-- One legal move: the incrementally updated hash agrees with the full
recompute of the successor board with the side to move flipped. -/
theorem hash_step {b : Board} {p : Player} {m : Move}
    (hm : m ∈ generate_all_valid_moves b p false) (h : Nat)
    (hh : h = compute_zobrist_key_full b p) :
    (simulate_move_and_update_hash b m m.piece_type p h).2 =
      compute_zobrist_key_full (simulate_move_and_update_hash b m m.piece_type p h).1
        (get_opponent p) := by
  obtain ⟨pc, hpc, hpl, hty, hne, hcap, hopp⟩ := generate_all_valid_moves_mem hm
  set b2 := (simulate_move_and_update_hash b m m.piece_type p h).1 with hb2
  -- the two changed squares, as coordinates
  set fr : Fin 9 × Fin 7 := (m.from_row, m.from_col) with hfr
  set dst : Fin 9 × Fin 7 := (m.to_row, m.to_col) with hdst
  have hdst_ne_fr : dst ≠ fr := by
    intro he
    exact hne ⟨congrArg Prod.fst he, congrArg Prod.snd he⟩
  -- square keys of the four relevant squares
  have hk_fr_b : squareKey b fr = zobrist_table m.piece_type p m.from_row m.from_col := by
    simp only [squareKey, hfr, hpc, hty, hpl]
  have hk_fr_b2 : squareKey b2 fr = 0 := by
    simp only [squareKey, hb2, simulate_squares, hfr]
    simp
  have hk_dst_b2 : squareKey b2 dst =
      zobrist_table m.piece_type p m.to_row m.to_col := by
    simp only [squareKey, hb2, simulate_squares, hdst]
    have : ¬(m.to_row = m.from_row ∧ m.to_col = m.from_col) := hne
    simp [this]
  have hagree : ∀ rc : Fin 9 × Fin 7, rc ≠ fr → rc ≠ dst → squareKey b2 rc = squareKey b rc := by
    intro rc hrf hrt
    have h1 : ¬(rc.1 = m.from_row ∧ rc.2 = m.from_col) := by
      intro hx
      exact hrf (Prod.ext hx.1 hx.2)
    have h2 : ¬(rc.1 = m.to_row ∧ rc.2 = m.to_col) := by
      intro hx
      exact hrt (Prod.ext hx.1 hx.2)
    simp only [squareKey, hb2, simulate_squares, h1, h2, if_false]
  have htwo := boardKey_two_point b b2 fr dst (Ne.symm hdst_ne_fr) hagree
  rw [compute_zobrist_key_full_eq] at hh
  rw [compute_zobrist_key_full_eq]
  cases hcv : (b.squares m.to_row m.to_col).piece with
  | none =>
    have hcapn : m.captured_piece_type = none := by rw [hcap, hcv]; rfl
    have hk_dst_b : squareKey b dst = 0 := by simp only [squareKey, hdst, hcv]
    rw [simulate_hash, hcapn]
    have hD : boardKey b2 = boardKey b ^^^
        (zobrist_table m.piece_type p m.from_row m.from_col ^^^
         zobrist_table m.piece_type p m.to_row m.to_col) := by
      rw [htwo, hk_fr_b, hk_fr_b2, hk_dst_b, hk_dst_b2, Nat.xor_zero, Nat.zero_xor]
    rw [Nat.xor_assoc h]
    rw [hash_update_algebra (boardKey b) _ zobrist_player1_to_move h p hh, hD]
  | some dp =>
    have hcaps : m.captured_piece_type = some dp.type := by rw [hcap, hcv]; rfl
    have hdpp : dp.player = get_opponent p := hopp dp hcv
    have hk_dst_b : squareKey b dst =
        zobrist_table dp.type (get_opponent p) m.to_row m.to_col := by
      simp only [squareKey, hdst, hcv, hdpp]
    rw [simulate_hash, hcaps]
    have hD : boardKey b2 = boardKey b ^^^
        (zobrist_table m.piece_type p m.from_row m.from_col ^^^
         (zobrist_table dp.type (get_opponent p) m.to_row m.to_col ^^^
          zobrist_table m.piece_type p m.to_row m.to_col)) := by
      rw [htwo, hk_fr_b, hk_fr_b2, hk_dst_b, hk_dst_b2, Nat.xor_zero]
    have hassoc : ((h ^^^ zobrist_table m.piece_type p m.from_row m.from_col) ^^^
        zobrist_table dp.type (get_opponent p) m.to_row m.to_col) ^^^
        zobrist_table m.piece_type p m.to_row m.to_col =
        h ^^^ (zobrist_table m.piece_type p m.from_row m.from_col ^^^
          (zobrist_table dp.type (get_opponent p) m.to_row m.to_col ^^^
           zobrist_table m.piece_type p m.to_row m.to_col)) := by
      rw [Nat.xor_assoc, Nat.xor_assoc]
    rw [hassoc, hash_update_algebra (boardKey b) _ zobrist_player1_to_move h p hh, hD]

/-- C1: starting from `compute_zobrist_key_full`, along any sequence of legal
moves the incrementally updated Zobrist hash equals the full recompute of the
resulting board with the side to move flipped after every move. -/
theorem C1_hash_consistency (ms : List Move) (b : Board) (p : Player)
    (b2 : Board) (p2 : Player) (h2 : Nat)
    (happ : apply_moves b p (compute_zobrist_key_full b p) ms = some (b2, p2, h2)) :
    h2 = compute_zobrist_key_full b2 p2 := by
  induction ms generalizing b p with
  | nil =>
    simp only [apply_moves, Option.some.injEq] at happ
    obtain ⟨rfl, rfl, rfl⟩ := happ
    rfl
  | cons m rest ih =>
    simp only [apply_moves] at happ
    split_ifs at happ with hmem
    have hstep := hash_step hmem (compute_zobrist_key_full b p) rfl
    rw [hstep] at happ
    exact ih _ _ happ

/-- C1 (witness): a concrete two-move legal sequence evaluated end to end. -/
theorem C1_witness :
    (apply_moves (boardOf [(4, 6, mkPiece .rat .p1), (8, 6, mkPiece .cat .p0)]) .p1
      (compute_zobrist_key_full
        (boardOf [(4, 6, mkPiece .rat .p1), (8, 6, mkPiece .cat .p0)]) .p1)
      [⟨4, 6, 3, 6, .rat, none, 0⟩, ⟨8, 6, 7, 6, .cat, none, 0⟩]).elim False
      (fun x => x.2.2 = compute_zobrist_key_full x.1 x.2.1) := by
  cases hx : apply_moves (boardOf [(4, 6, mkPiece .rat .p1), (8, 6, mkPiece .cat .p0)]) .p1
      (compute_zobrist_key_full
        (boardOf [(4, 6, mkPiece .rat .p1), (8, 6, mkPiece .cat .p0)]) .p1)
      [⟨4, 6, 3, 6, .rat, none, 0⟩, ⟨8, 6, 7, 6, .cat, none, 0⟩] with
  | none =>
    have hs : (apply_moves (boardOf [(4, 6, mkPiece .rat .p1), (8, 6, mkPiece .cat .p0)]) .p1
        (compute_zobrist_key_full
          (boardOf [(4, 6, mkPiece .rat .p1), (8, 6, mkPiece .cat .p0)]) .p1)
        [⟨4, 6, 3, 6, .rat, none, 0⟩, ⟨8, 6, 7, 6, .cat, none, 0⟩]).isSome = true := by rfl
    rw [hx] at hs
    exact Bool.noConfusion hs
  | some x =>
    simpa using C1_hash_consistency _ _ _ x.1 x.2.1 x.2.2 (by rw [hx])


/-! ## C10: frame conditions of `simulate_move_and_update_hash` -/

theorem countP_congr_int {α : Type} (l : List α) (f g : α → Bool)
    (h : ∀ x ∈ l, g x = f x) : l.countP g = l.countP f :=
  List.countP_congr fun x hx => by rw [h x hx]

theorem countP_one_point {α : Type} (l : List α) (f g : α → Bool) (a : α)
    (hnd : l.Nodup) (ha : a ∈ l)
    (hagree : ∀ x ∈ l, x ≠ a → g x = f x) :
    (l.countP g : Int) =
      l.countP f + ((if g a then 1 else 0) - (if f a then 1 else 0)) := by
  induction l with
  | nil => cases ha
  | cons x t ih =>
    have hnd' := (List.nodup_cons.mp hnd).2
    have hxnt := (List.nodup_cons.mp hnd).1
    simp only [List.countP_cons]
    push_cast
    rcases List.mem_cons.mp ha with rfl | hat
    · have ht : t.countP g = t.countP f :=
        countP_congr_int t f g fun y hy =>
          hagree y (List.mem_cons_of_mem _ hy) (by rintro rfl; exact hxnt hy)
      rw [ht]
      cases hga : g a <;> cases hfa : f a <;> simp [hga, hfa] <;> omega
    · have hx : g x = f x := hagree x (List.mem_cons_self _ _)
        (by rintro rfl; exact hxnt hat)
      have hih := ih hnd' hat fun y hy hya => hagree y (List.mem_cons_of_mem _ hy) hya
      rw [hx, hih]
      cases hfx : f x <;> cases hga : g a <;> cases hfa : f a <;>
        simp [hfx, hga, hfa] <;> omega

theorem countP_two_point {α : Type} (l : List α) (f g : α → Bool) (a b : α)
    (hnd : l.Nodup) (ha : a ∈ l) (hb : b ∈ l) (hab : a ≠ b)
    (hagree : ∀ x ∈ l, x ≠ a → x ≠ b → g x = f x) :
    (l.countP g : Int) =
      l.countP f + ((if g a then 1 else 0) - (if f a then 1 else 0)) +
        ((if g b then 1 else 0) - (if f b then 1 else 0)) := by
  induction l with
  | nil => cases ha
  | cons x t ih =>
    have hnd' := (List.nodup_cons.mp hnd).2
    have hxnt := (List.nodup_cons.mp hnd).1
    simp only [List.countP_cons]
    push_cast
    rcases List.mem_cons.mp ha with rfl | hat
    · have hbt : b ∈ t := by
        rcases List.mem_cons.mp hb with rfl | hbt
        · exact absurd rfl hab
        · exact hbt
      have ht := countP_one_point t f g b hnd' hbt fun y hy hyb =>
        hagree y (List.mem_cons_of_mem _ hy) (by rintro rfl; exact hxnt hy) hyb
      rw [ht]
      cases hga : g a <;> cases hfa : f a <;> cases hgb : g b <;> cases hfb : f b <;>
        simp [hga, hfa, hgb, hfb] <;> omega
    · rcases List.mem_cons.mp hb with rfl | hbt
      · have ht := countP_one_point t f g a hnd' hat fun y hy hya =>
          hagree y (List.mem_cons_of_mem _ hy) hya (by rintro rfl; exact hxnt hy)
        rw [ht]
        cases hga : g a <;> cases hfa : f a <;> cases hgb : g b <;> cases hfb : f b <;>
          simp [hga, hfa, hgb, hfb] <;> omega
      · have hx : g x = f x := hagree x (List.mem_cons_self _ _)
          (by rintro rfl; exact hxnt hat) (by rintro rfl; exact hxnt hbt)
        have hih := ih hnd' hat hbt fun y hy hya hyb =>
          hagree y (List.mem_cons_of_mem _ hy) hya hyb
        rw [hx, hih]
        cases hfx : f x <;> cases hga : g a <;> cases hfa : f a <;>
            cases hgb : g b <;> cases hfb : f b <;>
          simp [hfx, hga, hfa, hgb, hfb] <;> omega

/-- C10 (counterexample): for the degenerate move whose origin equals its
destination, the destination square ends up *empty* (the origin erasure wins)
and the piece count drops by one although the move is not a capture — two of
the claim's conjuncts fail at this input. -/
theorem C10_counterexample :
    ((simulate_move_and_update_hash c10Board c10Move .rat .p1 0).1.squares 0 0).piece = none ∧
    c10Move.captured_piece_type = none ∧
    c10Move.to_row = 0 ∧ c10Move.to_col = 0 ∧
    pieceCount (simulate_move_and_update_hash c10Board c10Move .rat .p1 0).1 + 1 =
      pieceCount c10Board := by
  decide

/-- C10 (amended): for every move whose origin differs from its destination,
`simulate_move_and_update_hash` leaves all other squares untouched, keeps
every square's terrain, empties the origin, and places the canonical moving
piece on the destination; if moreover the origin is occupied and the
destination occupancy matches the move's `captured_piece_type` flag, the
total piece count drops by one exactly for captures. -/
theorem C10_simulate_frame (b : Board) (m : Move) (t : PieceType) (p : Player)
    (h : Nat) (hne : ¬(m.to_row = m.from_row ∧ m.to_col = m.from_col)) :
    (∀ r c, ¬(r = m.from_row ∧ c = m.from_col) → ¬(r = m.to_row ∧ c = m.to_col) →
      (simulate_move_and_update_hash b m t p h).1.squares r c = b.squares r c) ∧
    (∀ r c, ((simulate_move_and_update_hash b m t p h).1.squares r c).terrain =
      (b.squares r c).terrain) ∧
    ((simulate_move_and_update_hash b m t p h).1.squares m.from_row m.from_col).piece
      = none ∧
    ((simulate_move_and_update_hash b m t p h).1.squares m.to_row m.to_col).piece
      = some ⟨t, p, (PIECE_INFO t).1, (PIECE_INFO t).2⟩ ∧
    ((b.squares m.from_row m.from_col).piece.isSome = true →
      ((b.squares m.to_row m.to_col).piece.isSome ↔ m.captured_piece_type ≠ none) →
      pieceCount (simulate_move_and_update_hash b m t p h).1 =
        if m.captured_piece_type ≠ none then pieceCount b - 1 else pieceCount b) := by
  refine ⟨?_, ?_, ?_, ?_, ?_⟩
  · intro r c h1 h2
    simp only [simulate_squares, h1, h2, if_false]
  · intro r c
    simp only [simulate_squares]
    split_ifs <;> rfl
  · simp [simulate_squares]
  · simp only [simulate_squares, hne, if_false]
    simp
  · intro hocc hcap
    have hfr : ((m.from_row, m.from_col) : Fin 9 × Fin 7) ∈ allCoords := mem_allCoords _
    have hdst : ((m.to_row, m.to_col) : Fin 9 × Fin 7) ∈ allCoords := mem_allCoords _
    have hab : ((m.from_row, m.from_col) : Fin 9 × Fin 7) ≠ (m.to_row, m.to_col) := by
      intro he
      exact hne ⟨(congrArg Prod.fst he).symm, (congrArg Prod.snd he).symm⟩
    have hcount := countP_two_point allCoords
      (fun rc => (b.squares rc.1 rc.2).piece.isSome)
      (fun rc => ((simulate_move_and_update_hash b m t p h).1.squares rc.1 rc.2).piece.isSome)
      (m.from_row, m.from_col) (m.to_row, m.to_col) allCoords_nodup hfr hdst hab
      (fun rc _ hra hrb => by
        have h1 : ¬(rc.1 = m.from_row ∧ rc.2 = m.from_col) := by
          intro hx; exact hra (Prod.ext hx.1 hx.2)
        have h2 : ¬(rc.1 = m.to_row ∧ rc.2 = m.to_col) := by
          intro hx; exact hrb (Prod.ext hx.1 hx.2)
        simp only [simulate_squares, h1, h2, if_false])
    have hg_fr : ((simulate_move_and_update_hash b m t p h).1.squares m.from_row
        m.from_col).piece.isSome = false := by
      simp [simulate_squares]
    have hg_dst : ((simulate_move_and_update_hash b m t p h).1.squares m.to_row
        m.to_col).piece.isSome = true := by
      simp only [simulate_squares, hne, if_false]
      simp
    have hpos : 0 < pieceCount b := by
      have : (fun rc : Fin 9 × Fin 7 => (b.squares rc.1 rc.2).piece.isSome)
          (m.from_row, m.from_col) = true := hocc
      exact List.countP_pos.mpr ⟨_, hfr, this⟩
    simp only [hg_fr, hg_dst, hocc] at hcount
    by_cases hc : m.captured_piece_type = none
    · have hdno : (b.squares m.to_row m.to_col).piece.isSome = false := by
        cases hx : (b.squares m.to_row m.to_col).piece.isSome
        · rfl
        · exact absurd (hcap.mp hx) (by simp [hc])
      rw [if_neg (by simp [hc])]
      simp only [hdno, if_true, if_false, Bool.false_eq_true, Bool.true_eq_false] at hcount
      unfold pieceCount
      omega
    · have hdyes : (b.squares m.to_row m.to_col).piece.isSome = true := by
        cases hx : (b.squares m.to_row m.to_col).piece.isSome
        · exact absurd (hcap.mpr hc) (by simp [hx])
        · rfl
      rw [if_pos (by simp [hc])]
      simp only [hdyes, if_true, if_false, Bool.false_eq_true, Bool.true_eq_false] at hcount
      unfold pieceCount at hpos ⊢
      omega

/-- C10 (witness for the amended theorem): a Rat stepping (4,6) → (3,6) on a
two-piece board; an untouched square, terrain preservation, origin erasure,
canonical destination piece, and unchanged piece count are all realised. -/
theorem C10_witness :
    (simulate_move_and_update_hash (boardOf [(4, 6, mkPiece .rat .p1)])
        ⟨4, 6, 3, 6, .rat, none, 0⟩ .rat .p1 0).1.squares 0 0 =
      (boardOf [(4, 6, mkPiece .rat .p1)]).squares 0 0 ∧
    ((simulate_move_and_update_hash (boardOf [(4, 6, mkPiece .rat .p1)])
        ⟨4, 6, 3, 6, .rat, none, 0⟩ .rat .p1 0).1.squares 3 6).terrain =
      ((boardOf [(4, 6, mkPiece .rat .p1)]).squares 3 6).terrain ∧
    ((simulate_move_and_update_hash (boardOf [(4, 6, mkPiece .rat .p1)])
        ⟨4, 6, 3, 6, .rat, none, 0⟩ .rat .p1 0).1.squares 4 6).piece = none ∧
    ((simulate_move_and_update_hash (boardOf [(4, 6, mkPiece .rat .p1)])
        ⟨4, 6, 3, 6, .rat, none, 0⟩ .rat .p1 0).1.squares 3 6).piece =
      some ⟨.rat, .p1, (PIECE_INFO .rat).1, (PIECE_INFO .rat).2⟩ ∧
    pieceCount (simulate_move_and_update_hash (boardOf [(4, 6, mkPiece .rat .p1)])
        ⟨4, 6, 3, 6, .rat, none, 0⟩ .rat .p1 0).1 =
      pieceCount (boardOf [(4, 6, mkPiece .rat .p1)]) := by
  have H := C10_simulate_frame (boardOf [(4, 6, mkPiece .rat .p1)])
    ⟨4, 6, 3, 6, .rat, none, 0⟩ .rat .p1 0 (by decide)
  exact ⟨H.1 0 0 (by decide) (by decide), H.2.1 3 6, H.2.2.1, H.2.2.2.1,
    by rw [H.2.2.2.2 (by decide) (by decide)]; decide⟩

/-! ## C5: river jumps -/

/-- Full case analysis of the jump templates. -/
theorem jump_candidates_cases {pt : PieceType} {r : Fin 9} {c : Fin 7}
    {cand : (Nat × Nat) × List (Nat × Nat)} (h : cand ∈ jump_candidates pt r c) :
    (r.val = 2 ∧ (c.val = 1 ∨ c.val = 2 ∨ c.val = 4 ∨ c.val = 5) ∧
      cand = ((6, c.val), [(3, c.val), (4, c.val), (5, c.val)])) ∨
    (r.val = 6 ∧ (c.val = 1 ∨ c.val = 2 ∨ c.val = 4 ∨ c.val = 5) ∧
      cand = ((2, c.val), [(5, c.val), (4, c.val), (3, c.val)])) ∨
    (pt = .lion ∧ 3 ≤ r.val ∧ r.val ≤ 5 ∧ c.val = 0 ∧
      cand = ((r.val, 3), [(r.val, 1), (r.val, 2)])) ∨
    (pt = .lion ∧ 3 ≤ r.val ∧ r.val ≤ 5 ∧ c.val = 3 ∧
      cand = ((r.val, 0), [(r.val, 2), (r.val, 1)])) ∨
    (pt = .lion ∧ 3 ≤ r.val ∧ r.val ≤ 5 ∧ c.val = 3 ∧
      cand = ((r.val, 6), [(r.val, 4), (r.val, 5)])) ∨
    (pt = .lion ∧ 3 ≤ r.val ∧ r.val ≤ 5 ∧ c.val = 6 ∧
      cand = ((r.val, 3), [(r.val, 5), (r.val, 4)])) := by
  unfold jump_candidates at h
  split_ifs at h <;>
    simp only [List.mem_append, List.mem_singleton, List.not_mem_nil, or_false,
      false_or] at h <;>
    (try exact h.elim) <;>
    simp only [rules_is_river, Bool.and_eq_true, Bool.or_eq_true,
      decide_eq_true_eq] at * <;>
    rcases h with rfl | rfl | rfl <;>
    first
      | exact Or.inl ⟨by omega, by omega, rfl⟩
      | exact Or.inr (Or.inl ⟨by omega, by omega, rfl⟩)
      | exact Or.inr (Or.inr (Or.inl ⟨by assumption, by omega, by omega, by omega, rfl⟩))
      | exact Or.inr (Or.inr (Or.inr (Or.inl
          ⟨by assumption, by omega, by omega, by omega, rfl⟩)))
      | exact Or.inr (Or.inr (Or.inr (Or.inr (Or.inl
          ⟨by assumption, by omega, by omega, by omega, rfl⟩))))
      | exact Or.inr (Or.inr (Or.inr (Or.inr (Or.inr
          ⟨by assumption, by omega, by omega, by omega, rfl⟩))))

/-- Orthogonal steps have Manhattan length 1. -/
theorem ortho_step_dist {b : Board} {r : Fin 9} {c : Fin 7} {pc : Piece} {co : Bool}
    {m : Move} (h : m ∈ (ortho_targets r c).filterMap
      fun q => step_move b r c pc co q.1 q.2) :
    move_dist m = 1 := by
  obtain ⟨q, hq, hsm⟩ := List.mem_filterMap.mp h
  obtain ⟨h1, h2, -, h4, h5, -, -⟩ := step_move_some hsm
  have hfr : m.from_row.val = r.val := congrArg Fin.val h1
  have hfc : m.from_col.val = c.val := congrArg Fin.val h2
  simp only [ortho_targets, List.mem_cons, List.not_mem_nil, or_false] at hq
  unfold move_dist
  rcases hq with rfl | rfl | rfl | rfl <;>
    simp only at h4 h5 <;> omega

/-- C5 part (a) helper: a move of length > 1 comes from the jump block, which
is guarded by the Lion-or-Tiger test. -/
theorem jump_only_lion_tiger {b : Board} {r : Fin 9} {c : Fin 7} {co : Bool}
    {m : Move} {pc : Piece} (hpc : (b.squares r c).piece = some pc)
    (hm : m ∈ rules_get_valid_moves_for_piece b r c co)
    (hdist : 1 < move_dist m) :
    pc.type = .lion ∨ pc.type = .tiger := by
  unfold rules_get_valid_moves_for_piece at hm
  rw [hpc] at hm
  simp only [List.mem_append] at hm
  rcases hm with hm | hm
  · exact absurd (ortho_step_dist hm) (by omega)
  · revert hm
    split_ifs with hlt
    · exact fun _ => hlt
    · exact fun hm => absurd hm (List.not_mem_nil _)

/-- C5 part (c) helper: every square strictly between the origin and the
destination of an emitted jump holds no piece. -/
theorem jump_path_clear {b : Board} {r : Fin 9} {c : Fin 7} {co : Bool}
    {m : Move} (hm : m ∈ rules_get_valid_moves_for_piece b r c co)
    (hdist : 1 < move_dist m) :
    ∀ cell, onJumpPath m cell → (cellSquare b cell).piece = none := by
  unfold rules_get_valid_moves_for_piece at hm
  revert hm
  split
  case h_1 => exact fun hm => absurd hm (List.not_mem_nil _)
  case h_2 pc hpc =>
    intro hm
    simp only [List.mem_append] at hm
    rcases hm with hm | hm
    · exact absurd (ortho_step_dist hm) (by omega)
    · revert hm
      split_ifs with hlt
      case neg => exact fun hm => absurd hm (List.not_mem_nil _)
      intro hm
      obtain ⟨cand, hcand, hje⟩ := List.mem_filterMap.mp hm
      obtain ⟨h1, h2, -, h4, h5, -, -, hclear, -, -, -⟩ := jump_emit_some hje
      have hfr : m.from_row.val = r.val := congrArg Fin.val h1
      have hfc : m.from_col.val = c.val := congrArg Fin.val h2
      intro cell hpath
      rcases jump_candidates_cases hcand with
        ⟨hrv, hcv, rfl⟩ | ⟨hrv, hcv, rfl⟩ | ⟨-, hr3, hr5, hcv, rfl⟩ |
        ⟨-, hr3, hr5, hcv, rfl⟩ | ⟨-, hr3, hr5, hcv, rfl⟩ | ⟨-, hr3, hr5, hcv, rfl⟩ <;>
        simp only at h4 h5 <;>
        rcases hpath with ⟨heq, hcell, hlo, hhi⟩ | ⟨heq, hcell, hlo, hhi⟩ <;>
        have hval := congrArg Fin.val heq <;>
        [skip; skip; skip; skip; skip; skip; skip; skip; skip; skip; skip; skip] <;>
        first
          | omega
          | (refine (hclear cell ?_).2
             have h31 : cell.1 = 3 ∨ cell.1 = 4 ∨ cell.1 = 5 := by omega
             have h32 : cell.2 = c.val := by omega
             rcases cell with ⟨c1, c2⟩
             simp only at h31 h32
             subst h32
             simp only [List.mem_cons, List.not_mem_nil, or_false, Prod.mk.injEq]
             rcases h31 with rfl | rfl | rfl <;> simp)
          | (refine (hclear cell ?_).2
             have h31 : cell.2 = 1 ∨ cell.2 = 2 := by omega
             have h32 : cell.1 = r.val := by omega
             rcases cell with ⟨c1, c2⟩
             simp only at h31 h32
             subst h32
             simp only [List.mem_cons, List.not_mem_nil, or_false, Prod.mk.injEq]
             rcases h31 with rfl | rfl <;> simp)
          | (refine (hclear cell ?_).2
             have h31 : cell.2 = 4 ∨ cell.2 = 5 := by omega
             have h32 : cell.1 = r.val := by omega
             rcases cell with ⟨c1, c2⟩
             simp only at h31 h32
             subst h32
             simp only [List.mem_cons, List.not_mem_nil, or_false, Prod.mk.injEq]
             rcases h31 with rfl | rfl <;> simp)

/-- Characterisation of `jump_emit` (ordinary mode) on a candidate whose path
cells are river cells and whose target column is the piece's column. -/
theorem jump_emit_eq_some_iff {b : Board} {r : Fin 9} {c : Fin 7} {pc : Piece}
    {tval : Nat} {path : List (Nat × Nat)} (htv : tval < 9)
    (hrivpath : ∀ cell ∈ path, rules_is_river cell.1 cell.2 = true) :
    (jump_emit b r c pc false ((tval, c.val), path) =
      some ⟨r, c, ⟨tval, htv⟩, c, pc.type,
        (b.squares ⟨tval, htv⟩ c).piece.map (·.type), 0⟩) ↔
    ((∀ cell ∈ path, (cellSquare b cell).piece = none) ∧
      jump_landing_ok b r c pc ⟨tval, htv⟩ c) := by
  constructor
  · intro hje
    obtain ⟨-, -, -, -, -, -, hopp, hclear, hden, hwat, hcapok⟩ := jump_emit_some hje
    exact ⟨fun cell hcell => (hclear cell hcell).2, hden, hwat,
      fun dp hdp => ⟨hopp dp hdp, hcapok dp hdp⟩⟩
  · rintro ⟨hcells, hden, hwat, hcapt⟩
    have hana : (path.any fun cell =>
        !(rules_is_river cell.1 cell.2) || (cellSquare b cell).piece.isSome) = false := by
      rw [List.any_eq_false]
      intro cell hcell
      simp [hrivpath cell hcell, hcells cell hcell]
    unfold jump_emit
    rw [if_neg (by simp [hana])]
    rw [dif_pos (show tval < 9 ∧ c.val < 7 from ⟨htv, c.isLt⟩)]
    simp only [Fin.eta]
    rw [if_neg (by simp)]
    rw [if_neg hden, if_neg hwat]
    cases hdp : (b.squares ⟨tval, htv⟩ c).piece with
    | none => simp [hdp]
    | some dp =>
      simp only [hdp]
      rw [if_neg (hcapt dp hdp).1, if_pos (hcapt dp hdp).2]
  
/-- Membership in the per-piece generator, unfolded at an occupied square. -/
theorem moves_for_piece_eq {b : Board} {r : Fin 9} {c : Fin 7} {co : Bool} {pc : Piece}
    (hpc : (b.squares r c).piece = some pc) :
    rules_get_valid_moves_for_piece b r c co =
      (ortho_targets r c).filterMap (fun q => step_move b r c pc co q.1 q.2) ++
      (if pc.type = .lion ∨ pc.type = .tiger then
        (jump_candidates pc.type r c).filterMap (jump_emit b r c pc co) else []) := by
  unfold rules_get_valid_moves_for_piece
  rw [hpc]

/-- C5 part (b) helper: the vertical river jump between `(2, c)` and `(6, c)`
is emitted exactly when the three river cells between them are empty and the
landing square passes the ordinary landing rules. -/
theorem vertical_jump_iff {b : Board} {r : Fin 9} {c : Fin 7} {pc : Piece} {tr : Fin 9}
    (hpc : (b.squares r c).piece = some pc)
    (hlt : pc.type = .lion ∨ pc.type = .tiger)
    (hc : c.val = 1 ∨ c.val = 2 ∨ c.val = 4 ∨ c.val = 5)
    (hdir : (r.val = 2 ∧ tr.val = 6) ∨ (r.val = 6 ∧ tr.val = 2)) :
    ((⟨r, c, tr, c, pc.type, (b.squares tr c).piece.map (·.type), 0⟩ : Move) ∈
        rules_get_valid_moves_for_piece b r c false ↔
      ((cellSquare b (3, c.val)).piece = none ∧
       (cellSquare b (4, c.val)).piece = none ∧
       (cellSquare b (5, c.val)).piece = none ∧
       jump_landing_ok b r c pc tr c)) := by
  have hnotrat : pc.type ≠ .rat := by rcases hlt with h | h <;> rw [h] <;> simp
  have hrivs : ∀ k : Nat, 3 ≤ k → k ≤ 5 → rules_is_river k c.val = true := by
    intro k hk1 hk2
    simp only [rules_is_river, Bool.and_eq_true, Bool.or_eq_true, decide_eq_true_eq]
    omega
  rcases hdir with ⟨hr_eq, htr_eq⟩ | ⟨hr_eq, htr_eq⟩
  · obtain rfl : r = ⟨2, by decide⟩ := Fin.ext hr_eq
    obtain rfl : tr = ⟨6, by decide⟩ := Fin.ext htr_eq
    have hcands : jump_candidates pc.type ⟨2, by decide⟩ c =
        [((6, c.val), [(3, c.val), (4, c.val), (5, c.val)])] := by
      rcases hlt with h | h <;>
        simp [jump_candidates, h, hrivs 3 (by omega) (by omega), hnotrat, rules_is_river] <;>
        omega
    have hrp : ∀ cell ∈ [((3 : Nat), c.val), (4, c.val), (5, c.val)],
        rules_is_river cell.1 cell.2 = true := by
      intro cell hcell
      simp only [List.mem_cons, List.not_mem_nil, or_false] at hcell
      rcases hcell with rfl | rfl | rfl <;> exact hrivs _ (by omega) (by omega)
    rw [moves_for_piece_eq hpc, if_pos hlt, hcands]
    constructor
    · intro hm
      rcases List.mem_append.mp hm with hm | hm
      · have hd := ortho_step_dist hm
        simp [move_dist] at hd
      · obtain ⟨cand, hcand, hje⟩ := List.mem_filterMap.mp hm
        simp only [List.mem_singleton] at hcand
        subst hcand
        obtain ⟨hcell, hland⟩ := (jump_emit_eq_some_iff (by decide) hrp).mp hje
        exact ⟨hcell _ (by simp), hcell _ (by simp), hcell _ (by simp), hland⟩
    · rintro ⟨h3, h4, h5, hland⟩
      refine List.mem_append.mpr (Or.inr (List.mem_filterMap.mpr
        ⟨_, List.mem_singleton.mpr rfl, ?_⟩))
      refine (jump_emit_eq_some_iff (by decide) hrp).mpr ⟨?_, hland⟩
      intro cell hcell
      simp only [List.mem_cons, List.not_mem_nil, or_false] at hcell
      rcases hcell with rfl | rfl | rfl <;> assumption
  · obtain rfl : r = ⟨6, by decide⟩ := Fin.ext hr_eq
    obtain rfl : tr = ⟨2, by decide⟩ := Fin.ext htr_eq
    have hcands : jump_candidates pc.type ⟨6, by decide⟩ c =
        [((2, c.val), [(5, c.val), (4, c.val), (3, c.val)])] := by
      rcases hlt with h | h <;>
        simp [jump_candidates, h, hrivs 3 (by omega) (by omega), hnotrat, rules_is_river] <;>
        omega
    have hrp : ∀ cell ∈ [((5 : Nat), c.val), (4, c.val), (3, c.val)],
        rules_is_river cell.1 cell.2 = true := by
      intro cell hcell
      simp only [List.mem_cons, List.not_mem_nil, or_false] at hcell
      rcases hcell with rfl | rfl | rfl <;> exact hrivs _ (by omega) (by omega)
    rw [moves_for_piece_eq hpc, if_pos hlt, hcands]
    constructor
    · intro hm
      rcases List.mem_append.mp hm with hm | hm
      · have hd := ortho_step_dist hm
        simp [move_dist] at hd
      · obtain ⟨cand, hcand, hje⟩ := List.mem_filterMap.mp hm
        simp only [List.mem_singleton] at hcand
        subst hcand
        obtain ⟨hcell, hland⟩ := (jump_emit_eq_some_iff (by decide) hrp).mp hje
        exact ⟨hcell _ (by simp), hcell _ (by simp), hcell _ (by simp), hland⟩
    · rintro ⟨h3, h4, h5, hland⟩
      refine List.mem_append.mpr (Or.inr (List.mem_filterMap.mpr
        ⟨_, List.mem_singleton.mpr rfl, ?_⟩))
      refine (jump_emit_eq_some_iff (by decide) hrp).mpr ⟨?_, hland⟩
      intro cell hcell
      simp only [List.mem_cons, List.not_mem_nil, or_false] at hcell
      rcases hcell with rfl | rfl | rfl <;> assumption

/-- C5: (a) only a Lion or Tiger ever emits a move of length > 1 (a river
jump); (b) the vertical jump between `(2, c)` and `(6, c)` for a river column
`c` is emitted exactly when the three intervening river cells are empty and
the landing square passes the ordinary landing rules; (c) an emitted jump
never crosses an occupied river cell: every square strictly between origin
and destination is empty. -/
theorem C5_river_jumps (b : Board) (r : Fin 9) (c : Fin 7) :
    (∀ (co : Bool) (m : Move) (pc : Piece), (b.squares r c).piece = some pc →
      m ∈ rules_get_valid_moves_for_piece b r c co → 1 < move_dist m →
      pc.type = .lion ∨ pc.type = .tiger) ∧
    (∀ (co : Bool) (m : Move), m ∈ rules_get_valid_moves_for_piece b r c co →
      1 < move_dist m →
      ∀ cell, onJumpPath m cell → (cellSquare b cell).piece = none) ∧
    (∀ (pc : Piece) (tr : Fin 9), (b.squares r c).piece = some pc →
      (pc.type = .lion ∨ pc.type = .tiger) →
      (c.val = 1 ∨ c.val = 2 ∨ c.val = 4 ∨ c.val = 5) →
      ((r.val = 2 ∧ tr.val = 6) ∨ (r.val = 6 ∧ tr.val = 2)) →
      ((⟨r, c, tr, c, pc.type, (b.squares tr c).piece.map (·.type), 0⟩ : Move) ∈
          rules_get_valid_moves_for_piece b r c false ↔
        ((cellSquare b (3, c.val)).piece = none ∧
         (cellSquare b (4, c.val)).piece = none ∧
         (cellSquare b (5, c.val)).piece = none ∧
         jump_landing_ok b r c pc tr c))) :=
  ⟨fun _ _ _ hpc hm hd => jump_only_lion_tiger hpc hm hd,
   fun _ _ hm hd => jump_path_clear hm hd,
   fun _ _ hpc hlt hc hdir => vertical_jump_iff hpc hlt hc hdir⟩

/-- C5 (witness): a Player1 Lion on `(2, 1)` over an empty river: the
vertical jump to `(6, 1)` is emitted (via part (b)), its mover is a
Lion-or-Tiger (part (a)), and the crossed river cell `(4, 1)` is empty
(part (c)). -/
theorem C5_witness :
    (PieceType.lion = .lion ∨ PieceType.lion = .tiger) ∧
    (cellSquare (boardOf [(2, 1, mkPiece .lion .p1)]) (4, 1)).piece = none ∧
    (⟨2, 1, 6, 1, .lion, none, 0⟩ : Move) ∈
      rules_get_valid_moves_for_piece (boardOf [(2, 1, mkPiece .lion .p1)]) 2 1 false := by
  have hmem : (⟨2, 1, 6, 1, .lion, none, 0⟩ : Move) ∈
      rules_get_valid_moves_for_piece (boardOf [(2, 1, mkPiece .lion .p1)]) 2 1 false := by
    have h := ((C5_river_jumps (boardOf [(2, 1, mkPiece .lion .p1)]) 2 1).2.2
      (mkPiece .lion .p1) 6 (by decide) (by decide) (by decide) (by decide)).mpr
    refine Eq.mp ?_ (h ⟨by decide, by decide, by decide, by decide, by decide,
      fun dp hdp => ?_⟩)
    · rfl
    · have hnone : ((boardOf [(2, 1, mkPiece .lion .p1)]).squares 6 1).piece = none := by
        decide
      rw [hnone] at hdp
      cases hdp
  refine ⟨(C5_river_jumps (boardOf [(2, 1, mkPiece .lion .p1)]) 2 1).1 false
      ⟨2, 1, 6, 1, .lion, none, 0⟩ (mkPiece .lion .p1) (by decide) hmem (by decide),
    (C5_river_jumps (boardOf [(2, 1, mkPiece .lion .p1)]) 2 1).2.1 false
      ⟨2, 1, 6, 1, .lion, none, 0⟩ hmem (by decide) (4, 1) ?_, hmem⟩
  unfold onJumpPath
  left
  refine ⟨by decide, by decide, by decide, by decide⟩

end AnimalChess

namespace AnimalChess

/-- The repetition check fires whenever the hash occurs twice in the
exclusive range. -/
theorem rep_draw_check_of_occ {path : Nat → Nat} {count hash : Nat} {ply : Nat}
    (hply : 0 < ply) (hrep : 2 ≤ occCount path count hash) :
    rep_draw_check path count hash ply = true := by
  unfold rep_draw_check
  have h1 : ((List.range count).any fun i => decide (path i = hash)) = true := by
    rw [List.any_eq_true]
    have hpos : 0 < (List.range count).countP fun i => decide (path i = hash) := by
      unfold occCount at hrep
      omega
    obtain ⟨i, hi, hp⟩ := List.countP_pos.mp hpos
    exact ⟨i, hi, hp⟩
  have h2 : 2 ≤ (List.range (count + 1)).countP fun j => decide (path j = hash) := by
    have hsub : (List.range count).Sublist (List.range (count + 1)) := by
      rw [List.range_succ]
      exact List.sublist_append_left _ _
    calc 2 ≤ occCount path count hash := hrep
      _ ≤ _ := hsub.countP_le _
  simp [h1, h2, hply]

/-- C6 (amended): if the node's entry time check does not fire, `ply > 0`,
and the hash occurs at least twice in `path_hashes[0 .. path_len)`, then
`alpha_beta` returns the draw score immediately — before probing the table,
searching any move, or touching any engine table (only the node counter and
the clock advance). -/
theorem C6_repetition_draw (b : Board) (hash : Nat) (depth alpha beta : Int)
    (is_max : Bool) (ply : Nat) (count : Nat) (allow_null : Bool) (s : EngineState)
    (hnt : ¬ s.times s.clk - s.start > s.limit)
    (hply : 0 < ply)
    (hrep : 2 ≤ occCount s.path count hash) :
    alpha_beta b hash depth alpha beta is_max ply count allow_null s =
      (DRAW_SCORE, { s with nodes := s.nodes + 1, clk := s.clk + 1 }) := by
  have hcore : alpha_beta_core b hash depth alpha beta is_max ply count allow_null s =
      .early DRAW_SCORE { s with nodes := s.nodes + 1, clk := s.clk + 1 } := by
    rw [alpha_beta_core.eq_def]
    simp only [check_time]
    rw [if_neg (by simpa using hnt)]
    rw [if_pos (by simpa using rep_draw_check_of_occ hply hrep)]
  rw [alpha_beta.eq_def, hcore]

end AnimalChess

namespace AnimalChess

/-- C6 (counterexample): the claim as stated omits the timeout check that
precedes the repetition check.  With an already-expired clock, a call with
`ply > 0` whose hash occurs twice in the path returns the timeout sentinel
888888, not the draw score 0. -/
theorem C6_counterexample :
    0 < (1 : Nat) ∧
    2 ≤ occCount (init_state (fun k => (k : Int)) 0 (fun _ => 777)).path 2 777 ∧
    (alpha_beta (boardOf []) 777 3 (-100) 100 true 1 2 true
      (init_state (fun k => (k : Int)) 0 (fun _ => 777))).1 ≠ DRAW_SCORE := by
  refine ⟨by decide, by decide, ?_⟩
  have hexp : (alpha_beta (boardOf []) 777 3 (-100) 100 true 1 2 true
      (init_state (fun k => (k : Int)) 0 (fun _ => 777))) =
      (888888, { init_state (fun k => (k : Int)) 0 (fun _ => 777) with
        nodes := 1, clk := 2 }) := by
    rw [alpha_beta.eq_def, alpha_beta_core.eq_def]
    norm_num [check_time, init_state]
  rw [hexp]
  decide

/-- C6 (witness for the amended theorem): with an unexpired clock the same
repetition input yields the draw score. -/
theorem C6_witness :
    (alpha_beta (boardOf []) 777 3 (-100) 100 true 1 2 true
      (init_state (fun _ => 0) 1000 (fun _ => 777))).1 = DRAW_SCORE := by
  have h := C6_repetition_draw (boardOf []) 777 3 (-100) 100 true 1 2 true
    (init_state (fun _ => 0) 1000 (fun _ => 777)) (by decide) (by decide) (by decide)
  rw [h]

end AnimalChess


namespace AnimalChess

theorem c8_xor_val : (777 : Nat) ^^^ 3615707535740025520 = 3615707535740025273 := by decide

/-- The null-move search spawned by the C8 node: the side to move (Player1)
has no legal move, so the reduced-depth search returns the mate score
`LOSE_SCORE + ply` immediately. -/
theorem c8_inner_eval :
    alpha_beta c8Board (777 ^^^ zobrist_player1_to_move) 1 (-100) (-99) true 2 1 false c8S3 =
      (-19998, c8S4) := by
  have hmv : generate_all_valid_moves c8Board .p1 false = [] := by rfl
  have hstat : rules_get_game_status c8Board = .ongoing := by rfl
  rw [zobrist_player1_to_move_val, c8_xor_val]
  rw [alpha_beta.eq_def, alpha_beta_core.eq_def]
  simp only [c8S3, c8S4, check_time, rep_draw_check, tt_probe, hstat, hmv,
    Function.update_same, List.any_cons, List.any_nil,
    Function.update_noteq]
  norm_num
  rw [ab_main.eq_def]
  simp [hmv, LOSE_SCORE]
  rw [zobrist_player1_to_move_val, c8_xor_val]

/-- C8: the claim says a deep mate score from the null-move search must fall
through to the normal move loop instead of pruning.  In the C source both
branches of the deep-mate test `return beta`, so the node prunes regardless.
On `c8Board` the null-move search returns the deep mate score 19998 (at or
above `WIN_SCORE - MAX_PLY_FOR_KILLERS*2` and above beta), yet `alpha_beta`
still returns beta = 100 with final state `c8S4`: only 2 nodes were visited
(this node and the null-move child), so the normal move loop never ran. -/
theorem C8_deep_mate_not_searched :
    (100 ≤ -(alpha_beta c8Board (777 ^^^ zobrist_player1_to_move) 1 (-100) (-99)
        true 2 1 false c8S3).1 ∧
     WIN_SCORE - (MAX_PLY_FOR_KILLERS : Int) * 2 ≤
       -(alpha_beta c8Board (777 ^^^ zobrist_player1_to_move) 1 (-100) (-99)
        true 2 1 false c8S3).1) ∧
    alpha_beta c8Board 777 5 (-100) 100 false 1 0 true
      (init_state (fun _ => 0) 1000 (fun _ => 0)) = (100, c8S4) ∧
    c8S4.nodes = 2 := by
  have hstat : rules_get_game_status c8Board = .ongoing := by rfl
  have hin := c8_inner_eval
  refine ⟨⟨by rw [hin]; norm_num, by rw [hin]; norm_num [WIN_SCORE, MAX_PLY_FOR_KILLERS]⟩, ?_, rfl⟩
  simp only [c8S3, c8S4] at hin
  rw [alpha_beta.eq_def, alpha_beta_core.eq_def]
  simp only [init_state, check_time, rep_draw_check, tt_probe, hstat,
    NMP_REDUCTION]
  norm_num
  rw [hin]
  simp [c8S4, WIN_SCORE, MAX_PLY_FOR_KILLERS]

end AnimalChess
